import Mathlib

/-!
Verification development for the purplebird mailer-client Netlify function
(`createMailerHandler` and its multipart/JSON request pipeline).

Conventions of the embedding:
* JavaScript byte buffers (Node `Buffer`) and UTF-8 encoded strings are
  modelled as `Bytes := List Nat` (one `Nat` per byte).
* Field names, field values, filenames, mime types and file payloads arriving
  from the streaming multipart parser are taken as byte lists (busboy hands
  the handler strings or buffers; UTF-8 encoding is injective, so byte lists
  are a faithful carrier).
* The streaming multipart parser (busboy) is an external collaborator; its
  event stream is modelled by the inductive `Ev`, and the handler's event
  callbacks are the transition function `stepMP`.
* `fetch` is modelled as a function `net : Outbound → Upstream` supplied to
  the handler; the list of issued calls is recorded in the result so that
  "zero network calls" claims are statable.
* `JSON.parse` of the inbound body is an external builtin; its verdict is
  supplied in the event record as `parsedBody : Except String Json`.
* Settlement of the `new Promise` in `handleMultipartRequest` is modelled by
  `Option Settle`: `none` means the promise is never settled (the request
  stalls), and only the first settlement counts.
-/

namespace Mailer

/-- A byte string (Node `Buffer` contents / UTF-8 string contents). -/
abbrev Bytes := List Nat

/-- Byte list of an ASCII string literal (for ASCII text, UTF-8 bytes are the
code points). Used for the literal strings appearing in the source. -/
def ascii (s : String) : Bytes := s.toList.map Char.toNat

/-- UTF-8 encoding of one character (standard 1-4 byte encoding), modelling
what `Buffer.from(str, 'utf8')` does per code point. -/
def utf8Char (c : Char) : Bytes :=
  let n := c.toNat
  if n < 128 then [n]
  else if n < 2048 then [192 + n / 64, 128 + n % 64]
  else if n < 65536 then [224 + n / 4096, 128 + (n / 64) % 64, 128 + n % 64]
  else [240 + n / 262144, 128 + (n / 4096) % 64, 128 + (n / 64) % 64, 128 + n % 64]

/-- UTF-8 bytes of a string, modelling `Buffer.from(s, 'utf8')`. -/
def utf8 (s : String) : Bytes := s.toList.flatMap utf8Char

/-- ASCII whitespace test on a byte (model of the whitespace class used by
JavaScript `String.prototype.trim` restricted to ASCII). -/
def isWSb (c : Nat) : Bool := c = 9 || c = 10 || c = 11 || c = 12 || c = 13 || c = 32

/-- Model of JavaScript `.trim()` on a byte string: strip leading and trailing
whitespace. -/
def trimBytes (s : Bytes) : Bytes :=
  ((s.dropWhile isWSb).reverse.dropWhile isWSb).reverse

/-- ASCII whitespace test on a character. -/
def isWSc (c : Char) : Bool := isWSb c.toNat

/-- Model of JavaScript `.trim()` on a string. -/
def trimStr (s : String) : String :=
  ⟨((s.toList.dropWhile isWSc).reverse.dropWhile isWSc).reverse⟩

/-- Helper for substring search: does `needle` occur in `hay`? -/
def containsSubAux (needle : List Char) : List Char → Bool
  | [] => needle.isEmpty
  | c :: t => needle.isPrefixOf (c :: t) || containsSubAux needle t

/-- Model of JavaScript `String.prototype.includes`. -/
def strContains (hay needle : String) : Bool :=
  containsSubAux needle.toList hay.toList

/-- JSON values, modelling what `JSON.parse` yields and `JSON.stringify`
consumes.  An object is an association list in property insertion order. -/
inductive Json where
  | null
  | bool (b : Bool)
  | num (n : Int)
  | str (s : String)
  | arr (xs : List Json)
  | obj (kvs : List (String × Json))

/-- Entries of a JSON value: the key/value pairs when it is an object,
nothing otherwise. -/
def jsonEntries : Json → List (String × Json)
  | .obj kvs => kvs
  | _ => []

/-- Resolved configuration of `createMailerHandler` after the
`config.x || process.env.X` fallback: each value is a JavaScript string, and
the empty string stands for a missing / falsy value. -/
structure Config where
  baseUrl : String
  formId : String
  apiKey : String

/-- The body of an outbound `fetch` to the mailer API. -/
inductive OutBody where
  | json (j : Json)
  | multipart (boundary : Bytes) (body : Bytes)

/-- One outbound `fetch` call: URL, bearer credential, body. -/
structure Outbound where
  url : String
  auth : String
  body : OutBody

/-- A downstream (mailer API) HTTP response as observed through `fetch`:
status, `content-type` header, and the body, readable as JSON (when the
handler calls `.json()`) or as text (when it calls `.text()`). -/
structure Upstream where
  status : Nat
  contentType : String
  jsonBody : Json
  textBody : String

/-- Model of `Response.ok`: status in the inclusive range 200-299. -/
def isOk (status : Nat) : Bool := 200 ≤ status && status ≤ 299

/-- The response the handler returns to the original caller.  The `body`
field is the JSON value passed to `JSON.stringify`. -/
structure HandlerResponse where
  statusCode : Nat
  headers : List (String × String)
  body : Json

/-- The headers attached to every handler response in the source. -/
def stdHeaders : List (String × String) :=
  [("Content-Type", "application/json"), ("Access-Control-Allow-Origin", "*")]

/-- Settlement of the multipart promise: `resolve` with a response or
`reject` with an error message. -/
inductive Settle where
  | resolved (r : HandlerResponse)
  | rejected (msg : String)

/-- First settlement wins (JavaScript promise semantics). -/
def settleFirst (cur : Option Settle) (s : Settle) : Option Settle :=
  match cur with
  | some x => some x
  | none => some s

/-- Response normalization of `forwardRequest` (multipart path, source lines
268-322): non-JSON content type yields a diagnostic failure envelope (with
`status || 500`), JSON + failing status passes the upstream JSON through
verbatim, JSON + ok status wraps it in `{success:true, data}`. -/
def normalizeMultipartResponse (r : Upstream) : HandlerResponse :=
  if strContains r.contentType "application/json" then
    if isOk r.status then
      { statusCode := 200, headers := stdHeaders,
        body := .obj [("success", .bool true), ("data", r.jsonBody)] }
    else
      { statusCode := r.status, headers := stdHeaders, body := r.jsonBody }
  else
    { statusCode := if r.status = 0 then 500 else r.status,
      headers := stdHeaders,
      body := .obj
        [("success", .bool false),
         ("error", .str ("Mailer API returned invalid response (" ++
            toString r.status ++ "). Check mailer logs.")),
         ("details", .str (if strContains r.contentType "html" then
            "Received HTML instead of JSON"
          else "Content-Type: " ++ r.contentType))] }

/-- Response normalization of `handleJsonRequest` (source lines 384-435);
identical to the multipart one except for the `details` wording on the HTML
case. -/
def normalizeJsonResponse (r : Upstream) : HandlerResponse :=
  if strContains r.contentType "application/json" then
    if isOk r.status then
      { statusCode := 200, headers := stdHeaders,
        body := .obj [("success", .bool true), ("data", r.jsonBody)] }
    else
      { statusCode := r.status, headers := stdHeaders, body := r.jsonBody }
  else
    { statusCode := if r.status = 0 then 500 else r.status,
      headers := stdHeaders,
      body := .obj
        [("success", .bool false),
         ("error", .str ("Mailer API returned invalid response (" ++
            toString r.status ++ "). Check mailer logs.")),
         ("details", .str (if strContains r.contentType "html" then
            "Received HTML instead of JSON - check mailer URL"
          else "Content-Type: " ++ r.contentType))] }

/-- Model of the JavaScript statement `delete body[k]` for a string-valued
key on a parsed JSON value: deleting on an object removes the key; deleting
a property of `null` throws a TypeError; deleting on any other primitive or
array is a no-op (sloppy mode). -/
def jsDelete (k : String) (j : Json) : Except String Json :=
  match j with
  | .null => .error "Cannot convert undefined or null to object"
  | .obj kvs => .ok (.obj (kvs.filter (fun kv => kv.1 ≠ k)))
  | other => .ok other

/-- The outbound JSON-path call built by `handleJsonRequest` (source lines
372-382). -/
def jsonOutbound (cfg : Config) (formData : Json) : Outbound :=
  { url := cfg.baseUrl ++ "/form-submissions",
    auth := cfg.apiKey,
    body := .json (.obj [("formId", .str cfg.formId), ("formData", formData)]) }

/-- `handleJsonRequest` (source lines 361-436): strips the reserved control
fields from the parsed body, forwards `{formId, formData}` to
`/form-submissions`, and normalizes the response.  The result pairs the list
of outbound calls with either the returned response or a thrown error
message (caught by `createMailerHandler`). -/
def handleJsonRequest (cfg : Config) (parsed : Except String Json)
    (net : Outbound → Upstream) : List Outbound × Except String HandlerResponse :=
  match parsed with
  | .error m => ([], .error m)
  | .ok body =>
    match (jsDelete "form-name" body).bind (jsDelete "bot-field") with
    | .error m => ([], .error m)
    | .ok stripped =>
      let call := jsonOutbound cfg stripped
      ([call], .ok (normalizeJsonResponse (net call)))

/-! ## Multipart re-encoder (`forwardRequest`, source lines 206-249)

The source pushes string/buffer segments into `parts` and concatenates them
into one buffer.  Here each part's segments are concatenated directly; the
per-part byte strings below follow the `parts.push` sequence verbatim. -/

/-- Carriage-return/line-feed pair (`CRLF` in the source). -/
def crlf : Bytes := [13, 10]

/-- Two ASCII dashes, as used around boundary tokens. -/
def dash2 : Bytes := [45, 45]

/-- ASCII double quote. -/
def quoteB : Nat := 34

/-- One text field part, exactly the five segments pushed by the source:
`--boundary CRLF`, `Content-Disposition: form-data; name="<name>" CRLF`,
`CRLF`, the value, `CRLF`. -/
def encodeFieldPart (b name value : Bytes) : Bytes :=
  dash2 ++ b ++ crlf ++
  ascii "Content-Disposition: form-data; name=" ++ [quoteB] ++ name ++ [quoteB] ++ crlf ++
  crlf ++
  value ++
  crlf

/-- A file record accumulated by the multipart handler (the object pushed to
`files` on a file stream's `end`). -/
structure FileRec where
  name : Bytes
  filename : Bytes
  type : Bytes
  buffer : Bytes
  size : Nat
deriving DecidableEq

/-- One file part, exactly the six segments pushed by the source:
`--boundary CRLF`, the `Content-Disposition` line with filename,
`Content-Type: <type> CRLF`, `CRLF`, the raw buffer, `CRLF`. -/
def encodeFilePart (b : Bytes) (f : FileRec) : Bytes :=
  dash2 ++ b ++ crlf ++
  ascii "Content-Disposition: form-data; name=" ++ [quoteB] ++ f.name ++ [quoteB] ++
    ascii "; filename=" ++ [quoteB] ++ f.filename ++ [quoteB] ++ crlf ++
  ascii "Content-Type: " ++ f.type ++ crlf ++
  crlf ++
  f.buffer ++
  crlf

/-- The guard of the `for (const [name, value] of Object.entries(fields))`
loop: true for fields that are emitted, false for the skipped names
`formId`, `form-name` and `bot-field`. -/
def keepField (nv : Bytes × Bytes) : Bool :=
  !(nv.1 == ascii "formId" || nv.1 == ascii "form-name" || nv.1 == ascii "bot-field")

/-- One entry of the field loop: skipped names contribute nothing, the rest
are encoded as field parts. -/
def encodeFieldEntry (b : Bytes) (nv : Bytes × Bytes) : Bytes :=
  if keepField nv then encodeFieldPart b nv.1 nv.2 else []

/-- The closing boundary line `--boundary-- CRLF`. -/
def closeDelim (b : Bytes) : Bytes := dash2 ++ b ++ dash2 ++ crlf

/-- The whole re-encoded multipart body (source lines 208-249): the `formId`
part first, then the remaining fields in order, then the files in order,
then the closing boundary line. -/
def encodeMultipart (b fid : Bytes) (fields : List (Bytes × Bytes))
    (files : List FileRec) : Bytes :=
  encodeFieldPart b (ascii "formId") fid ++
  (fields.map (encodeFieldEntry b)).flatten ++
  (files.map (encodeFilePart b)).flatten ++
  closeDelim b

/-- The outbound multipart upload call built by `forwardRequest` (source
lines 256-266). -/
def uploadOutbound (cfg : Config) (b : Bytes) (fields : List (Bytes × Bytes))
    (files : List FileRec) : Outbound :=
  { url := cfg.baseUrl ++ "/form-submissions-upload",
    auth := cfg.apiKey,
    body := .multipart b (encodeMultipart b (utf8 (trimStr cfg.formId)) fields files) }

/-- `forwardRequest` (source lines 188-326): validates the configured form
id, re-encodes the accumulated submission, issues the upload call, and
settles the promise with the normalized response; a thrown error rejects.
Returns the issued call (if any) and the settlement. -/
def forwardRequest (cfg : Config) (b : Bytes) (fields : List (Bytes × Bytes))
    (files : List FileRec) (net : Outbound → Upstream) : Option Outbound × Settle :=
  if cfg.formId = "" then
    (none, .rejected "MAILER_FORM_ID environment variable is not set")
  else if trimStr cfg.formId = "" then
    (none, .rejected "MAILER_FORM_ID is empty or invalid")
  else
    let call := uploadOutbound cfg b fields files
    (some call, .resolved (normalizeMultipartResponse (net call)))

/-! ## Multipart parser adapter and submission accumulator
(`handleMultipartRequest`, source lines 111-359) -/

/-- Events delivered by the streaming multipart parser (busboy) and by the
per-file streams it hands out.  File streams are identified by a numeric id;
`fileStart` is busboy's `file` event, `fileChunk`/`fileEnd`/`fileError` are
the stream's `data`/`end`/`error` events, `finish` is busboy's `finish`, and
`parseError` is busboy's `error`. -/
inductive Ev where
  | field (name value : Bytes)
  | fileStart (id : Nat) (name filename mimeType : Bytes)
  | fileChunk (id : Nat) (chunk : Bytes)
  | fileEnd (id : Nat)
  | fileError (id : Nat) (msg : String)
  | parseError (msg : String)
  | finish
deriving DecidableEq

/-- The per-file closure state of an open, tracked file stream: the `file`
event's name/filename/mimeType and the `chunks` array. -/
structure StreamRec where
  name : Bytes
  filename : Bytes
  mimeType : Bytes
  chunks : List Bytes
deriving DecidableEq

/-- The mutable state of one `handleMultipartRequest` invocation: the
`fields` object (insertion-ordered association list), the `files` array, the
open tracked streams, the `fieldsProcessed` / `pendingFiles` /
`completedFiles` coordination variables, plus bookkeeping for the model: the
number of `forwardRequest` invocations, the outbound calls issued, and the
promise settlement. -/
structure MPState where
  fields : List (Bytes × Bytes)
  files : List FileRec
  streams : List (Nat × StreamRec)
  fieldsProcessed : Bool
  pendingFiles : Nat
  completedFiles : Nat
  forwards : Nat
  calls : List Outbound
  settled : Option Settle

/-- The initial state of `handleMultipartRequest`. -/
def initMP : MPState :=
  { fields := [], files := [], streams := [], fieldsProcessed := false,
    pendingFiles := 0, completedFiles := 0, forwards := 0, calls := [],
    settled := none }

/-- Insertion-ordered association-list update: existing keys keep their
position and get the new value, new keys are appended at the end. -/
def upsertAssoc (n v : Bytes) : List (Bytes × Bytes) → List (Bytes × Bytes)
  | [] => [(n, v)]
  | (m, w) :: t => if m = n then (m, v) :: t else (m, w) :: upsertAssoc n v t

/-- Model of `fields[name] = value` on a plain JavaScript object: existing
keys keep their position and get the new value, new keys are appended.
Assigning to the key `__proto__` on a plain object invokes the
`Object.prototype` accessor and creates no own property, so it is a no-op
here (busboy field values are strings). -/
def upsertField (fields : List (Bytes × Bytes)) (n v : Bytes) : List (Bytes × Bytes) :=
  if n = ascii "__proto__" then fields
  else upsertAssoc n v fields

/-- Append a chunk to the tracked stream with the given id (the `data`
callback pushing onto that stream's `chunks`). -/
def addChunk (streams : List (Nat × StreamRec)) (k : Nat) (c : Bytes) :
    List (Nat × StreamRec) :=
  streams.map (fun kv => if kv.1 = k then (kv.1, { kv.2 with chunks := kv.2.chunks ++ [c] }) else kv)

/-- Find the tracked stream with the given id. -/
def lookupStream (streams : List (Nat × StreamRec)) (k : Nat) : Option StreamRec :=
  match streams with
  | [] => none
  | (m, sr) :: t => if m = k then some sr else lookupStream t k

/-- Invoke `forwardRequest` on the current accumulated state (recording the
invocation, any issued call, and the first settlement). -/
def doForward (cfg : Config) (b : Bytes) (net : Outbound → Upstream)
    (st : MPState) : MPState :=
  { st with forwards := st.forwards + 1,
            calls := st.calls ++ (forwardRequest cfg b st.fields st.files net).1.toList,
            settled := settleFirst st.settled (forwardRequest cfg b st.fields st.files net).2 }

/-- `checkAndForward` (source lines 182-186): forward once the parser has
finished and either no file stream was opened or all opened streams have
completed. -/
def checkAndForward (cfg : Config) (b : Bytes) (net : Outbound → Upstream)
    (st : MPState) : MPState :=
  if st.fieldsProcessed = true ∧ (st.pendingFiles = 0 ∨ st.completedFiles = st.pendingFiles) then
    doForward cfg b net st
  else st

/-- One busboy / file-stream event, exactly as handled by the source:
* `field` (lines 129-135): skip `form-name` / `bot-field`, else upsert;
* `file` (lines 137-180): skip streams whose filename trims to empty
  (drained, untracked); otherwise track the stream and bump `pendingFiles`;
* `data` (lines 151-154): append the chunk to the tracked stream;
* `end` (lines 156-175): concatenate the chunks, push a file record when the
  buffer is non-empty, bump `completedFiles`, `checkAndForward`;
* `error` (lines 177-179): log only — no state change;
* `finish` (lines 328-337): set `fieldsProcessed`; forward immediately when
  `pendingFiles` is zero, else `checkAndForward`;
* busboy `error` (lines 339-342): reject the promise. -/
def stepMP (cfg : Config) (b : Bytes) (net : Outbound → Upstream)
    (st : MPState) : Ev → MPState
  | .field n v =>
    if n = ascii "form-name" ∨ n = ascii "bot-field" then st
    else { st with fields := upsertField st.fields n v }
  | .fileStart k n fn mt =>
    if trimBytes fn = [] then st
    else { st with streams := (k, ⟨n, fn, mt, []⟩) :: st.streams,
                   pendingFiles := st.pendingFiles + 1 }
  | .fileChunk k c => { st with streams := addChunk st.streams k c }
  | .fileEnd k =>
    match lookupStream st.streams k with
    | none => st
    | some sr =>
      checkAndForward cfg b net
        { st with
          files := if 0 < sr.chunks.flatten.length
            then st.files ++
              [⟨sr.name, sr.filename, sr.mimeType, sr.chunks.flatten, sr.chunks.flatten.length⟩]
            else st.files,
          completedFiles := st.completedFiles + 1 }
  | .fileError _ _ => st
  | .parseError m => { st with settled := settleFirst st.settled (.rejected m) }
  | .finish =>
    let st1 := { st with fieldsProcessed := true }
    if st1.pendingFiles = 0 then doForward cfg b net st1
    else checkAndForward cfg b net st1

/-- Run the whole event stream of one multipart request from the initial
state. -/
def runMP (cfg : Config) (b : Bytes) (net : Outbound → Upstream)
    (evs : List Ev) : MPState :=
  evs.foldl (stepMP cfg b net) initMP

/-! ## Request router (`createMailerHandler`, source lines 26-102) -/

/-- The inbound request as seen by the handler.  `contentType` is the
resolved `headers['content-type'] || headers['Content-Type'] || ''`;
`parsedBody` is the verdict of the external `JSON.parse(event.body || '{}')`
(present only on the JSON path); `mpEvents` is the event stream the external
multipart parser produces from the request body (multipart path). -/
structure Event where
  httpMethod : String
  contentType : String
  parsedBody : Except String Json
  mpEvents : List Ev

/-- The `405` response for non-POST requests. -/
def methodNotAllowed : HandlerResponse :=
  { statusCode := 405, headers := stdHeaders,
    body := .obj [("error", .str "Method not allowed")] }

/-- The missing-configuration error message (source line 62). -/
def missingConfigMsg : String :=
  "Missing required configuration: baseUrl, formId, and apiKey must be provided either via createMailerHandler() or environment variables (MAILER_BASE_URL, MAILER_FORM_ID, MAILER_FORM_API_KEY)"

/-- The `500` missing-configuration response (source lines 53-65). -/
def missingConfigResponse : HandlerResponse :=
  { statusCode := 500, headers := stdHeaders,
    body := .obj [("success", .bool false), ("error", .str missingConfigMsg)] }

/-- The catch-all `500` response of the outer try/catch (source lines
87-100): `error.message || 'Internal server error'`. -/
def internalError (m : String) : HandlerResponse :=
  { statusCode := 500, headers := stdHeaders,
    body := .obj [("success", .bool false),
      ("error", .str (if m = "" then "Internal server error" else m))] }

/-- The full handler returned by `createMailerHandler` for one request:
method check, configuration check, then dispatch on content type.  The
result pairs the outbound calls issued with the response; `none` means the
handler's promise never settles (the invocation stalls). -/
def createMailerHandler (cfg : Config) (ev : Event) (b : Bytes)
    (net : Outbound → Upstream) : List Outbound × Option HandlerResponse :=
  if ev.httpMethod ≠ "POST" then ([], some methodNotAllowed)
  else if cfg.baseUrl = "" ∨ cfg.formId = "" ∨ cfg.apiKey = "" then
    ([], some missingConfigResponse)
  else if strContains ev.contentType "multipart/form-data" then
    let st := runMP cfg b net ev.mpEvents
    (st.calls,
     match st.settled with
     | some (.resolved r) => some r
     | some (.rejected m) => some (internalError m)
     | none => none)
  else
    match handleJsonRequest cfg ev.parsedBody net with
    | (calls, .ok r) => (calls, some r)
    | (calls, .error m) => (calls, some (internalError m))

/-! ## Trace-level notions for the completion invariant -/

/-- Is this event the opening of a file stream with a usable (non-empty
after trimming) filename? -/
def usableStart : Ev → Bool
  | .fileStart _ _ fn _ => !(trimBytes fn == [])
  | _ => false

/-- Number of file streams opened with a usable filename in a trace. -/
def openedCount (evs : List Ev) : Nat := (evs.filter usableStart).length

/-- Number of drained (end-of-stream) file streams among those opened with a
usable filename, accumulated left to right; `usable` carries the ids of the
usable streams opened so far. -/
def drainedFrom (usable : List Nat) : List Ev → Nat
  | [] => 0
  | .fileEnd k :: rest => (if k ∈ usable then 1 else 0) + drainedFrom usable rest
  | .fileStart k _ fn _ :: rest =>
      drainedFrom (if trimBytes fn = [] then usable else k :: usable) rest
  | _ :: rest => drainedFrom usable rest

/-- Number of drained usable file streams in a trace. -/
def drainedCount (evs : List Ev) : Nat := drainedFrom [] evs

/-- Has the parser signaled overall end-of-stream in this trace? -/
def finishSeen (evs : List Ev) : Bool :=
  evs.any (fun e => e matches .finish)

/-- The field names of a trace in first-seen order, starting from the names
already present: reserved control names are skipped, a repeated name keeps
its original position (last-write-wins on the value), a new name is appended
(`__proto__` never creates an own property on a plain object). -/
def fieldOrder (acc : List Bytes) : List Ev → List Bytes
  | [] => acc
  | .field n _ :: rest =>
    fieldOrder
      (if n = ascii "form-name" ∨ n = ascii "bot-field" then acc
       else if n = ascii "__proto__" then acc
       else if n ∈ acc then acc else acc ++ [n]) rest
  | _ :: rest => fieldOrder acc rest

/-- Well-formedness of an event trace relative to how busboy delivers
events: stream ids are fresh at `fileStart`; chunk/end/error events only
occur on started streams; each stream ends at most once; and the parser
emits no `field`, `file` or second `finish` event after `finish` (per-file
stream events may still lag behind `finish`). -/
def validFrom (started ended : List Nat) (fin : Bool) : List Ev → Bool
  | [] => true
  | .field _ _ :: rest => !fin && validFrom started ended fin rest
  | .fileStart k _ _ _ :: rest =>
      !fin && !(decide (k ∈ started)) && validFrom (k :: started) ended fin rest
  | .fileChunk k _ :: rest => decide (k ∈ started) && validFrom started ended fin rest
  | .fileEnd k :: rest =>
      decide (k ∈ started) && !(decide (k ∈ ended)) &&
        validFrom started (k :: ended) fin rest
  | .fileError k _ :: rest => decide (k ∈ started) && validFrom started ended fin rest
  | .parseError _ :: rest => validFrom started ended fin rest
  | .finish :: rest => !fin && validFrom started ended true rest

/-- A well-formed busboy event trace. -/
def ValidTrace (evs : List Ev) : Prop := validFrom [] [] false evs = true

instance (evs : List Ev) : Decidable (ValidTrace evs) := by
  unfold ValidTrace; infer_instance

/-! ## A standards-compliant multipart parser

Modelled from the spec: the spec's round-trip property re-parses the
re-encoder's output "with a standards-compliant multipart parser" (no such
parser exists in the repository, the downstream mailer owns it).  The parser
below implements RFC 2046 boundary delimiting for `multipart/form-data`
bodies in the framing the re-encoder emits: parts are separated by
`CRLF --boundary CRLF`, each part carries a `Content-Disposition:
form-data; name="..."` header, optionally `; filename="..."` and a
`Content-Type` header, a blank line, then the raw payload; the body ends
with `--boundary-- CRLF`. -/

/-- One parsed multipart part. -/
structure Part where
  name : Bytes
  filename : Option Bytes
  ctype : Option Bytes
  payload : Bytes
deriving DecidableEq

/-- Split a byte string at the first occurrence of `delim`, returning the
bytes before it and the bytes after it. -/
def findSplit (delim : Bytes) : Bytes → Option (Bytes × Bytes)
  | [] => if delim.isPrefixOf ([] : Bytes) then some ([], []) else none
  | c :: t =>
    if delim.isPrefixOf (c :: t) then some ([], List.drop delim.length (c :: t))
    else (findSplit delim t).map (fun pr => (c :: pr.1, pr.2))

/-- `delim` has no occurrence starting strictly inside `L` when `L` is
followed by `delim` itself (so the first occurrence of `delim` in
`L ++ delim ++ anything` is exactly at the end of `L`). -/
def noEarly (delim : Bytes) : Bytes → Bool
  | [] => true
  | c :: t => !(delim.isPrefixOf ((c :: t) ++ delim)) && noEarly delim t

/-- Read CRLF-terminated header lines up to and including the blank line;
returns the lines and the remaining bytes.  `fuel` bounds the recursion. -/
def parseHeaderLines : Nat → Bytes → Option (List Bytes × Bytes)
  | 0, _ => none
  | fuel + 1, s =>
    match findSplit crlf s with
    | none => none
    | some (line, rest) =>
      if line = [] then some ([], rest)
      else (parseHeaderLines fuel rest).map (fun pr => (line :: pr.1, pr.2))

/-- Parse a `Content-Disposition: form-data; name="..."` header line,
optionally carrying `; filename="..."`. -/
def parseCD (line : Bytes) : Option (Bytes × Option Bytes) :=
  let pre := ascii "Content-Disposition: form-data; name=" ++ [quoteB]
  if pre.isPrefixOf line then
    match findSplit [quoteB] (line.drop pre.length) with
    | none => none
    | some (name, rest) =>
      if rest = [] then some (name, none)
      else
        let pre2 := ascii "; filename=" ++ [quoteB]
        if pre2.isPrefixOf rest then
          match findSplit [quoteB] (rest.drop pre2.length) with
          | none => none
          | some (fn, rest2) => if rest2 = [] then some (name, some fn) else none
        else none
  else none

/-- Parse a `Content-Type: ...` header line. -/
def parseCT (line : Bytes) : Option Bytes :=
  let pre := ascii "Content-Type: "
  if pre.isPrefixOf line then some (line.drop pre.length) else none

/-- Build a part from its parsed header lines and payload: exactly one
`Content-Disposition` line, optionally followed by one `Content-Type`
line. -/
def buildPart (lines : List Bytes) (payload : Bytes) : Option Part :=
  match lines with
  | [cd] => (parseCD cd).map (fun nf => ⟨nf.1, nf.2, none, payload⟩)
  | [cd, ct] =>
    match parseCD cd, parseCT ct with
    | some nf, some tv => some ⟨nf.1, nf.2, some tv, payload⟩
    | _, _ => none
  | _ => none

/-- Parse the part sequence after an initial `--boundary` has been consumed:
either the closing `-- CRLF` follows, or `CRLF`, the header block, and a
payload delimited by the next `CRLF --boundary`. -/
def parseParts (b : Bytes) : Nat → Bytes → Option (List Part)
  | 0, _ => none
  | fuel + 1, s =>
    if s = dash2 ++ crlf then some []
    else if crlf.isPrefixOf s then
      match parseHeaderLines ((s.drop 2).length + 1) (s.drop 2) with
      | none => none
      | some (lines, s2) =>
        match findSplit (crlf ++ dash2 ++ b) s2 with
        | none => none
        | some (payload, rest) =>
          match buildPart lines payload with
          | none => none
          | some p => (parseParts b fuel rest).map (fun ps => p :: ps)
    else none

/-- Parse a whole `multipart/form-data` body delimited by boundary `b`. -/
def parseMultipart (b : Bytes) (s : Bytes) : Option (List Part) :=
  let pre := dash2 ++ b
  if pre.isPrefixOf s then
    parseParts b ((s.drop pre.length).length + 1) (s.drop pre.length)
  else none

/-- The part a submission field re-parses to. -/
def fieldAsPart (nv : Bytes × Bytes) : Part := ⟨nv.1, none, none, nv.2⟩

/-- The part a submission file re-parses to. -/
def fileAsPart (f : FileRec) : Part := ⟨f.name, some f.filename, some f.type, f.buffer⟩

/-- The parts a completed submission is expected to re-parse to: the
`formId` control part first, then the non-reserved fields, then the
files. -/
def expectedParts (fid : Bytes) (fields : List (Bytes × Bytes))
    (files : List FileRec) : List Part :=
  ⟨ascii "formId", none, none, fid⟩ ::
  ((fields.filter keepField).map fieldAsPart ++ files.map fileAsPart)

/-- The `Content-Disposition` header line of a part (without its CRLF). -/
def cdLineOf (name : Bytes) (fn : Option Bytes) : Bytes :=
  ascii "Content-Disposition: form-data; name=" ++ [quoteB] ++ name ++ [quoteB] ++
  (match fn with
   | none => []
   | some f => ascii "; filename=" ++ [quoteB] ++ f ++ [quoteB])

/-- The `Content-Type` header line of a file part (without its CRLF). -/
def ctLineOf (ct : Bytes) : Bytes := ascii "Content-Type: " ++ ct

/-- The header block of a part as the re-encoder frames it: the
`Content-Disposition` line, the optional `Content-Type` line, and the blank
line, each CRLF-terminated. -/
def partHeaderBytes (p : Part) : Bytes :=
  cdLineOf p.name p.filename ++ crlf ++
  (match p.ctype with
   | none => []
   | some ct => ctLineOf ct ++ crlf) ++
  crlf

/-- The bytes of one part as seen between two boundary delimiters: the CRLF
closing the boundary line, the header block, and the payload. -/
def partTail (p : Part) : Bytes := crlf ++ partHeaderBytes p ++ p.payload

/-- The re-encoded body viewed from just after an initial `--boundary`:
either the closing `-- CRLF`, or one part followed by the `CRLF --boundary`
delimiter and the rest.  This is the shape `parseParts` consumes. -/
def encodeFromParts (b : Bytes) : List Part → Bytes
  | [] => dash2 ++ crlf
  | p :: ps => partTail p ++ crlf ++ dash2 ++ b ++ encodeFromParts b ps

/-- Well-formedness of a byte string destined for a header line: no double
quote, carriage return, or line feed. -/
def headerSafe (x : Bytes) : Bool :=
  x.all (fun c => !(c = quoteB || c = 13 || c = 10))

/-- Well-formedness of a payload relative to boundary `b`: the part
delimiter `CRLF --b` does not occur early in the payload. -/
def bodySafe (b x : Bytes) : Bool := noEarly (crlf ++ dash2 ++ b) x

/-- Well-formedness of a whole submission relative to boundary `b`: the
boundary is header-safe, the formId payload is body-safe, every field has a
header-safe name and body-safe value, and every file has header-safe
name/filename/type and a body-safe buffer. -/
def wfSubmission (b fid : Bytes) (fields : List (Bytes × Bytes))
    (files : List FileRec) : Bool :=
  headerSafe b && bodySafe b fid &&
  fields.all (fun nv => headerSafe nv.1 && bodySafe b nv.2) &&
  files.all (fun f => headerSafe f.name && headerSafe f.filename &&
    headerSafe f.type && bodySafe b f.buffer)

/-- Well-formedness of one part relative to boundary `b`: header components
header-safe, payload body-safe. -/
def wfPart (b : Bytes) (p : Part) : Bool :=
  headerSafe p.name &&
  (match p.filename with | none => true | some fn => headerSafe fn) &&
  (match p.ctype with | none => true | some ct => headerSafe ct) &&
  bodySafe b p.payload

/-! ## Concrete example inputs (used to instantiate the theorems below) -/

/-- An example complete configuration. -/
def exCfg : Config :=
  { baseUrl := "https://mailer.example/api", formId := "form-1", apiKey := "key-1" }

/-- An example configuration with the API credential missing. -/
def exCfgMissing : Config :=
  { baseUrl := "https://mailer.example/api", formId := "form-1", apiKey := "" }

/-- An example downstream that always answers 200 with a JSON body. -/
def exNet : Outbound → Upstream :=
  fun _ => { status := 200, contentType := "application/json",
             jsonBody := .obj [("ok", .bool true)], textBody := "" }

/-- An example generated boundary. -/
def exBoundary : Bytes := ascii "B"

/-- An example well-formed multipart event trace: one field, one file of two
bytes, with the file stream draining after the parser finishes. -/
def exEvents : List Ev :=
  [.field (ascii "a") (ascii "x"),
   .fileStart 0 (ascii "f") (ascii "a.txt") (ascii "text/plain"),
   .fileChunk 0 [1, 2],
   .finish,
   .fileEnd 0]

/-- The file record accumulated by `exEvents`. -/
def exFileRec : FileRec :=
  ⟨ascii "f", ascii "a.txt", ascii "text/plain", [1, 2], 2⟩

/-- An example trace in which the only file stream errors and never drains. -/
def exErrEvents : List Ev :=
  [.fileStart 0 (ascii "file") (ascii "a.txt") (ascii "text/plain"),
   .fileError 0 "stream error",
   .finish]

/-- An example trace in which busboy itself reports a parse error. -/
def exParseErrEvents : List Ev := [.parseError "Unexpected end of form"]

/-- A multipart request whose only file stream errors mid-stream. -/
def exMpErrEvent : Event :=
  { httpMethod := "POST", contentType := "multipart/form-data; boundary=X",
    parsedBody := .ok .null, mpEvents := exErrEvents }

/-- A multipart request whose body is malformed at the parser level. -/
def exMpParseErrEvent : Event :=
  { httpMethod := "POST", contentType := "multipart/form-data; boundary=X",
    parsedBody := .ok .null, mpEvents := exParseErrEvents }

/-- A JSON request whose body fails to parse. -/
def exJsonBadEvent : Event :=
  { httpMethod := "POST", contentType := "application/json",
    parsedBody := .error "Unexpected token o in JSON at position 1", mpEvents := [] }

/-- An example re-encoder form id payload. -/
def exFid : Bytes := ascii "F"

/-- An example submission field list. -/
def exFields : List (Bytes × Bytes) := [(ascii "a", ascii "v")]

/-- An example submission file list. -/
def exFiles : List FileRec := [⟨ascii "f", ascii "g.txt", ascii "t/p", [1, 2, 3], 3⟩]

/-- A field value containing the part delimiter `CRLF --B` of `exBoundary`. -/
def exBadValue : Bytes := [13, 10, 45, 45, 66]

/-- An example non-JSON downstream response. -/
def exHtmlUpstream : Upstream :=
  { status := 503, contentType := "text/html", jsonBody := .null,
    textBody := "<html>error</html>" }

/-- An example failing JSON downstream response. -/
def exJsonFailUpstream : Upstream :=
  { status := 400, contentType := "application/json",
    jsonBody := .obj [("success", .bool false), ("error", .str "invalid")],
    textBody := "" }

/-- An example successful JSON downstream response. -/
def exJsonOkUpstream : Upstream :=
  { status := 200, contentType := "application/json",
    jsonBody := .obj [("id", .num 42)], textBody := "" }

/-- An example parsed JSON body containing a reserved control field. -/
def exRawJson : Json := .obj [("form-name", .str "contact"), ("x", .str "y")]

/-- `exRawJson` after the reserved control fields are deleted. -/
def exStrippedJson : Json := .obj [("x", .str "y")]

/-! ## Helper lemmas: prefixes and delimiter splitting -/

theorem isPrefixOf_append_self (a c : Bytes) : a.isPrefixOf (a ++ c) = true := by
  induction a with
  | nil => simp [List.isPrefixOf]
  | cons x xs ih => simpa [List.isPrefixOf] using ih

theorem isPrefixOf_append_of_le (d x r : Bytes) (h : d.length ≤ x.length) :
    d.isPrefixOf (x ++ r) = d.isPrefixOf x := by
  induction d generalizing x with
  | nil => simp [List.isPrefixOf]
  | cons a d' ih =>
    cases x with
    | nil => simp at h
    | cons y x' =>
      simp only [List.cons_append, List.isPrefixOf, List.append_eq]
      simp only [List.length_cons, Nat.add_le_add_iff_right] at h
      rw [ih x' h]

theorem findSplit_exact (d L R : Bytes) (h : noEarly d L = true) :
    findSplit d (L ++ (d ++ R)) = some (L, R) := by
  induction L with
  | nil =>
    simp only [List.nil_append]
    cases hd : d ++ R with
    | nil =>
      rcases List.append_eq_nil.mp hd with ⟨h1, h2⟩
      subst h1; subst h2
      simp [findSplit, List.isPrefixOf]
    | cons c t =>
      rw [findSplit]
      have hp : d.isPrefixOf (c :: t) = true := by
        rw [← hd]; exact isPrefixOf_append_self d R
      rw [hp]
      simp only [if_true]
      rw [← hd, List.drop_left]
  | cons c L' ih =>
    rw [noEarly, Bool.and_eq_true, Bool.not_eq_true'] at h
    obtain ⟨hnp, hL'⟩ := h
    have hcons : (c :: L') ++ (d ++ R) = c :: (L' ++ (d ++ R)) := by simp
    rw [hcons, findSplit]
    have hlen : d.length ≤ ((c :: L') ++ d).length := by simp; omega
    have : d.isPrefixOf (((c :: L') ++ d) ++ R) = d.isPrefixOf ((c :: L') ++ d) :=
      isPrefixOf_append_of_le d ((c :: L') ++ d) R hlen
    have hnp2 : d.isPrefixOf (c :: (L' ++ (d ++ R))) = false := by
      have harr : ((c :: L') ++ d) ++ R = c :: (L' ++ (d ++ R)) := by simp
      rw [harr] at this
      rw [this, hnp]
    rw [hnp2]
    simp only [Bool.false_eq_true, if_false]
    rw [ih hL']
    rfl

theorem noEarly_of_head_notin (h : Nat) (d' L : Bytes)
    (hm : ∀ c ∈ L, c ≠ h) : noEarly (h :: d') L = true := by
  induction L with
  | nil => rfl
  | cons c t ih =>
    rw [noEarly]
    have hc : c ≠ h := hm c (List.mem_cons_self c t)
    have h1 : (h :: d').isPrefixOf ((c :: t) ++ (h :: d')) = false := by
      simp only [List.cons_append, List.isPrefixOf, Bool.and_eq_false_iff]
      left
      simpa [beq_iff_eq] using fun hh => hc hh.symm
    rw [h1]
    simp only [Bool.not_false, Bool.true_and]
    exact ih (fun c hc2 => hm c (List.mem_cons_of_mem _ hc2))

theorem noEarly_nil (d : Bytes) : noEarly d [] = true := rfl

theorem findSplit_exact_nil (d R : Bytes) : findSplit d (d ++ R) = some ([], R) := by
  have := findSplit_exact d [] R (noEarly_nil d)
  simpa using this

/-- `noEarly crlf` holds for any byte string not containing a carriage
return. -/
theorem noEarly_crlf_of_no13 (L : Bytes) (h : ∀ c ∈ L, c ≠ 13) :
    noEarly crlf L = true :=
  noEarly_of_head_notin 13 [10] L h

/-- `noEarly` for the part delimiter `CRLF --b` holds for any byte string
not containing a carriage return. -/
theorem noEarly_delim_of_no13 (b L : Bytes) (h : ∀ c ∈ L, c ≠ 13) :
    noEarly (crlf ++ dash2 ++ b) L = true := by
  have h2 := noEarly_of_head_notin 13 ([10] ++ dash2 ++ b) L h
  have he : (13 : Nat) :: ([10] ++ dash2 ++ b) = crlf ++ dash2 ++ b := by
    simp [crlf, dash2]
  rwa [he] at h2

/-- `noEarly` for a single byte delimiter. -/
theorem noEarly_single (q : Nat) (L : Bytes) (h : ∀ c ∈ L, c ≠ q) :
    noEarly [q] L = true :=
  noEarly_of_head_notin q [] L h

theorem headerSafe_no13 (x : Bytes) (h : headerSafe x = true) : ∀ c ∈ x, c ≠ 13 := by
  intro c hc
  have := List.all_eq_true.mp h c hc
  simp only [Bool.not_eq_true', Bool.or_eq_false_iff, decide_eq_false_iff_not] at this
  exact this.1.2

theorem headerSafe_no34 (x : Bytes) (h : headerSafe x = true) : ∀ c ∈ x, c ≠ quoteB := by
  intro c hc
  have := List.all_eq_true.mp h c hc
  simp only [Bool.not_eq_true', Bool.or_eq_false_iff, decide_eq_false_iff_not] at this
  exact this.1.1

theorem no13_append (x y : Bytes) (hx : ∀ c ∈ x, c ≠ 13) (hy : ∀ c ∈ y, c ≠ 13) :
    ∀ c ∈ x ++ y, c ≠ 13 := by
  intro c hc
  rcases List.mem_append.mp hc with h | h
  exacts [hx c h, hy c h]

/-- One CRLF-terminated non-empty header line followed by the blank line. -/
theorem parseHeaderLines_one (line rest : Bytes) (hC : ∀ c ∈ line, c ≠ 13)
    (hne : line ≠ []) (f : Nat) :
    parseHeaderLines (f + 2) (line ++ crlf ++ crlf ++ rest) = some ([line], rest) := by
  have h1 : line ++ crlf ++ crlf ++ rest = line ++ (crlf ++ (crlf ++ rest)) := by simp
  rw [h1, parseHeaderLines, findSplit_exact crlf line (crlf ++ rest) (noEarly_crlf_of_no13 line hC)]
  simp only [if_neg hne]
  rw [parseHeaderLines, findSplit_exact_nil crlf rest]
  simp

/-- Two CRLF-terminated non-empty header lines followed by the blank line. -/
theorem parseHeaderLines_two (l1 l2 rest : Bytes)
    (hC1 : ∀ c ∈ l1, c ≠ 13) (hne1 : l1 ≠ [])
    (hC2 : ∀ c ∈ l2, c ≠ 13) (hne2 : l2 ≠ []) (f : Nat) :
    parseHeaderLines (f + 3) (l1 ++ crlf ++ l2 ++ crlf ++ crlf ++ rest) =
      some ([l1, l2], rest) := by
  have h1 : l1 ++ crlf ++ l2 ++ crlf ++ crlf ++ rest
      = l1 ++ (crlf ++ (l2 ++ crlf ++ crlf ++ rest)) := by simp
  rw [h1, parseHeaderLines,
    findSplit_exact crlf l1 (l2 ++ crlf ++ crlf ++ rest) (noEarly_crlf_of_no13 l1 hC1)]
  simp only [if_neg hne1]
  rw [parseHeaderLines_one l2 rest hC2 hne2 f]
  simp

/-- `parseCD` recovers the name of a field-part disposition line. -/
theorem parseCD_field (name : Bytes) (h34 : ∀ c ∈ name, c ≠ quoteB) :
    parseCD (ascii "Content-Disposition: form-data; name=" ++ [quoteB] ++ name ++ [quoteB]) =
      some (name, none) := by
  rw [parseCD]
  have hsh : ascii "Content-Disposition: form-data; name=" ++ [quoteB] ++ name ++ [quoteB]
      = (ascii "Content-Disposition: form-data; name=" ++ [quoteB]) ++ (name ++ ([quoteB] ++ [])) := by
    simp
  rw [hsh, isPrefixOf_append_self, List.drop_left,
    findSplit_exact [quoteB] name [] (noEarly_single quoteB name h34)]
  simp

/-- `parseCD` recovers the name and filename of a file-part disposition
line. -/
theorem parseCD_file (name fn : Bytes) (h34 : ∀ c ∈ name, c ≠ quoteB)
    (h34f : ∀ c ∈ fn, c ≠ quoteB) :
    parseCD (ascii "Content-Disposition: form-data; name=" ++ [quoteB] ++ name ++ [quoteB] ++
      (ascii "; filename=" ++ [quoteB] ++ fn ++ [quoteB])) = some (name, some fn) := by
  rw [parseCD]
  have hsh : ascii "Content-Disposition: form-data; name=" ++ [quoteB] ++ name ++ [quoteB] ++
      (ascii "; filename=" ++ [quoteB] ++ fn ++ [quoteB])
      = (ascii "Content-Disposition: form-data; name=" ++ [quoteB]) ++
        (name ++ ([quoteB] ++ (ascii "; filename=" ++ [quoteB] ++ fn ++ [quoteB]))) := by
    simp
  rw [hsh, isPrefixOf_append_self, List.drop_left,
    findSplit_exact [quoteB] name _ (noEarly_single quoteB name h34)]
  have hne : ascii "; filename=" ++ [quoteB] ++ fn ++ [quoteB] ≠ [] := by
    simp [ascii]
  simp only [if_true]
  have hsh2 : ascii "; filename=" ++ [quoteB] ++ fn ++ [quoteB]
      = (ascii "; filename=" ++ [quoteB]) ++ (fn ++ ([quoteB] ++ [])) := by simp
  rw [if_neg hne, hsh2, isPrefixOf_append_self, List.drop_left,
    findSplit_exact [quoteB] fn [] (noEarly_single quoteB fn h34f)]
  simp

/-- `parseCT` recovers the mime type of a content-type line. -/
theorem parseCT_exact (ct : Bytes) :
    parseCT (ascii "Content-Type: " ++ ct) = some ct := by
  rw [parseCT]
  have : (ascii "Content-Type: ").isPrefixOf (ascii "Content-Type: " ++ ct) = true :=
    isPrefixOf_append_self _ _
  rw [this]
  simp [List.drop_left]

/-- `parseCD` recovers name and optional filename from the re-encoder's
disposition line. -/
theorem parseCD_cdLineOf (name : Bytes) (fn : Option Bytes)
    (h34 : ∀ c ∈ name, c ≠ quoteB)
    (h34f : ∀ f, fn = some f → ∀ c ∈ f, c ≠ quoteB) :
    parseCD (cdLineOf name fn) = some (name, fn) := by
  cases fn with
  | none =>
    have he : cdLineOf name none
        = ascii "Content-Disposition: form-data; name=" ++ [quoteB] ++ name ++ [quoteB] := by
      simp [cdLineOf]
    rw [he, parseCD_field name h34]
  | some f =>
    have he : cdLineOf name (some f)
        = ascii "Content-Disposition: form-data; name=" ++ [quoteB] ++ name ++ [quoteB] ++
          (ascii "; filename=" ++ [quoteB] ++ f ++ [quoteB]) := by
      simp [cdLineOf]
    rw [he, parseCD_file name f h34 (h34f f rfl)]

theorem cdLineOf_no13 (name : Bytes) (fn : Option Bytes)
    (h13 : ∀ c ∈ name, c ≠ 13)
    (h13f : ∀ f, fn = some f → ∀ c ∈ f, c ≠ 13) :
    ∀ c ∈ cdLineOf name fn, c ≠ 13 := by
  have hA : ∀ c ∈ ascii "Content-Disposition: form-data; name=", c ≠ 13 := by decide
  have hF : ∀ c ∈ ascii "; filename=", c ≠ 13 := by decide
  cases fn with
  | none =>
    intro c hc
    simp [cdLineOf] at hc
    rcases hc with h | h | h | h
    · exact hA c h
    · subst h; decide
    · exact h13 c h
    · subst h; decide
  | some f =>
    intro c hc
    simp [cdLineOf] at hc
    rcases hc with h | h | h | h | h | h | h | h
    · exact hA c h
    · subst h; decide
    · exact h13 c h
    · subst h; decide
    · exact hF c h
    · subst h; decide
    · exact h13f f rfl c h
    · subst h; decide

theorem cdLineOf_ne_nil (name : Bytes) (fn : Option Bytes) : cdLineOf name fn ≠ [] := by
  cases fn <;> simp [cdLineOf, ascii]

theorem ctLineOf_no13 (ct : Bytes) (h13 : ∀ c ∈ ct, c ≠ 13) :
    ∀ c ∈ ctLineOf ct, c ≠ 13 := by
  have hA : ∀ c ∈ ascii "Content-Type: ", c ≠ 13 := by decide
  exact no13_append _ _ hA h13

theorem ctLineOf_ne_nil (ct : Bytes) : ctLineOf ct ≠ [] := by
  simp [ctLineOf, ascii]

/-- Parsing one encoded part followed by a part delimiter and the rest of
the body consumes exactly that part. -/
theorem parseParts_step (b name : Bytes) (fn ct : Option Bytes)
    (payload rest : Bytes) (f : Nat)
    (hname : headerSafe name = true)
    (hfn : ∀ g, fn = some g → headerSafe g = true)
    (hct : ∀ t, ct = some t → headerSafe t = true)
    (hpay : bodySafe b payload = true) :
    parseParts b (f + 1) (partTail ⟨name, fn, ct, payload⟩ ++ crlf ++ dash2 ++ b ++ rest)
      = (parseParts b f rest).map (fun ps => (⟨name, fn, ct, payload⟩ : Part) :: ps) := by
  have hname13 := headerSafe_no13 name hname
  have hname34 := headerSafe_no34 name hname
  have hfn13 : ∀ g, fn = some g → ∀ c ∈ g, c ≠ 13 :=
    fun g hg => headerSafe_no13 g (hfn g hg)
  have hfn34 : ∀ g, fn = some g → ∀ c ∈ g, c ≠ quoteB :=
    fun g hg => headerSafe_no34 g (hfn g hg)
  have hcd13 : ∀ c ∈ cdLineOf name fn, c ≠ 13 := cdLineOf_no13 name fn hname13 hfn13
  have hcdne := cdLineOf_ne_nil name fn
  have hpay' : noEarly (crlf ++ dash2 ++ b) payload = true := hpay
  cases ct with
  | none =>
    have hS : partTail ⟨name, fn, none, payload⟩ ++ crlf ++ dash2 ++ b ++ rest
        = crlf ++ (cdLineOf name fn ++ crlf ++ crlf ++
            (payload ++ ((crlf ++ dash2 ++ b) ++ rest))) := by
      simp [partTail, partHeaderBytes]
    rw [hS, parseParts]
    have hne : crlf ++ (cdLineOf name fn ++ crlf ++ crlf ++
        (payload ++ ((crlf ++ dash2 ++ b) ++ rest))) ≠ dash2 ++ crlf := by
      simp [crlf, dash2]
    rw [if_neg hne]
    have hpre : crlf.isPrefixOf (crlf ++ (cdLineOf name fn ++ crlf ++ crlf ++
        (payload ++ ((crlf ++ dash2 ++ b) ++ rest)))) = true :=
      isPrefixOf_append_self crlf _
    rw [if_pos hpre]
    have hdrop : (crlf ++ (cdLineOf name fn ++ crlf ++ crlf ++
        (payload ++ ((crlf ++ dash2 ++ b) ++ rest)))).drop 2
        = cdLineOf name fn ++ crlf ++ crlf ++
            (payload ++ ((crlf ++ dash2 ++ b) ++ rest)) := by
      simp [crlf]
    rw [hdrop]
    have hflen : (cdLineOf name fn ++ crlf ++ crlf ++
        (payload ++ ((crlf ++ dash2 ++ b) ++ rest))).length + 1
        = ((cdLineOf name fn ++ crlf ++ crlf ++
            (payload ++ ((crlf ++ dash2 ++ b) ++ rest))).length - 1) + 2 := by
      simp [crlf]
      omega
    rw [hflen, parseHeaderLines_one _ _ hcd13 hcdne _]
    simp only []
    rw [findSplit_exact (crlf ++ dash2 ++ b) payload rest hpay']
    simp only [buildPart]
    rw [parseCD_cdLineOf name fn hname34 hfn34]
    simp only [Option.map]
  | some ctv =>
    have hctv : headerSafe ctv = true := hct ctv rfl
    have hct13 : ∀ c ∈ ctLineOf ctv, c ≠ 13 :=
      ctLineOf_no13 ctv (headerSafe_no13 ctv hctv)
    have hctne := ctLineOf_ne_nil ctv
    have hS : partTail ⟨name, fn, some ctv, payload⟩ ++ crlf ++ dash2 ++ b ++ rest
        = crlf ++ (cdLineOf name fn ++ crlf ++ ctLineOf ctv ++ crlf ++ crlf ++
            (payload ++ ((crlf ++ dash2 ++ b) ++ rest))) := by
      simp [partTail, partHeaderBytes, ctLineOf]
    rw [hS, parseParts]
    have hne : crlf ++ (cdLineOf name fn ++ crlf ++ ctLineOf ctv ++ crlf ++ crlf ++
        (payload ++ ((crlf ++ dash2 ++ b) ++ rest))) ≠ dash2 ++ crlf := by
      simp [crlf, dash2]
    rw [if_neg hne]
    have hpre : crlf.isPrefixOf (crlf ++ (cdLineOf name fn ++ crlf ++ ctLineOf ctv ++
        crlf ++ crlf ++ (payload ++ ((crlf ++ dash2 ++ b) ++ rest)))) = true :=
      isPrefixOf_append_self crlf _
    rw [if_pos hpre]
    have hdrop : (crlf ++ (cdLineOf name fn ++ crlf ++ ctLineOf ctv ++ crlf ++ crlf ++
        (payload ++ ((crlf ++ dash2 ++ b) ++ rest)))).drop 2
        = cdLineOf name fn ++ crlf ++ ctLineOf ctv ++ crlf ++ crlf ++
            (payload ++ ((crlf ++ dash2 ++ b) ++ rest)) := by
      simp [crlf]
    rw [hdrop]
    have hflen : (cdLineOf name fn ++ crlf ++ ctLineOf ctv ++ crlf ++ crlf ++
        (payload ++ ((crlf ++ dash2 ++ b) ++ rest))).length + 1
        = ((cdLineOf name fn ++ crlf ++ ctLineOf ctv ++ crlf ++ crlf ++
            (payload ++ ((crlf ++ dash2 ++ b) ++ rest))).length - 2) + 3 := by
      simp [crlf]
      omega
    rw [hflen, parseHeaderLines_two _ _ _ hcd13 hcdne hct13 hctne _]
    simp only []
    rw [findSplit_exact (crlf ++ dash2 ++ b) payload rest hpay']
    simp only [buildPart]
    rw [parseCD_cdLineOf name fn hname34 hfn34]
    have hctl : parseCT (ctLineOf ctv) = some ctv := parseCT_exact ctv
    rw [hctl]

/-- `parseParts` recovers exactly the part list from the encoded tail, given
enough fuel and well-formed parts. -/
theorem parseParts_encodeFromParts (b : Bytes) :
    ∀ (parts : List Part) (fuel : Nat),
      (encodeFromParts b parts).length < fuel →
      (∀ p ∈ parts, wfPart b p = true) →
      parseParts b fuel (encodeFromParts b parts) = some parts := by
  intro parts
  induction parts with
  | nil =>
    intro fuel hlen _
    cases fuel with
    | zero => exact absurd hlen (by omega)
    | succ f =>
      rw [encodeFromParts, parseParts]
      simp
  | cons p ps ih =>
    intro fuel hlen hwf
    cases fuel with
    | zero => exact absurd hlen (by omega)
    | succ f =>
      have hwp : wfPart b p = true := hwf p (List.mem_cons_self p ps)
      obtain ⟨name, fn, ct, payload⟩ := p
      simp only [wfPart, Bool.and_eq_true] at hwp
      obtain ⟨⟨⟨h1, h2⟩, h3⟩, h4⟩ := hwp
      have hfn : ∀ g, fn = some g → headerSafe g = true := by
        intro g hg; subst hg; simpa using h2
      have hct : ∀ t, ct = some t → headerSafe t = true := by
        intro t ht; subst ht; simpa using h3
      have hrec : (encodeFromParts b ps).length < f := by
        rw [encodeFromParts] at hlen
        simp only [List.length_append, List.length_cons, partTail, crlf, dash2,
          List.length_nil] at hlen
        omega
      rw [encodeFromParts,
        parseParts_step b name fn ct payload (encodeFromParts b ps) f h1 hfn hct h4,
        ih f hrec (fun q hq => hwf q (List.mem_cons_of_mem _ hq))]
      rfl

/-- The file loop plus closing boundary, seen in parser alignment. -/
theorem encodeFiles_eq (b : Bytes) : ∀ files : List FileRec,
    (files.map (encodeFilePart b)).flatten ++ closeDelim b
      = dash2 ++ b ++ encodeFromParts b (files.map fileAsPart) := by
  intro files
  induction files with
  | nil => simp [closeDelim, encodeFromParts]
  | cons f fs ih =>
    simp only [List.map_cons, List.flatten_cons, List.append_assoc]
    rw [List.append_assoc] at ih
    rw [ih]
    simp [encodeFilePart, encodeFromParts, partTail, partHeaderBytes, fileAsPart,
      cdLineOf, ctLineOf]

/-- The field loop, seen in parser alignment, for any continuation of
parts. -/
theorem encodeFields_eq (b : Bytes) : ∀ (fields : List (Bytes × Bytes)) (K : List Part),
    (fields.map (encodeFieldEntry b)).flatten ++ (dash2 ++ b ++ encodeFromParts b K)
      = dash2 ++ b ++ encodeFromParts b ((fields.filter keepField).map fieldAsPart ++ K) := by
  intro fields K
  induction fields with
  | nil => simp
  | cons nv rest ih =>
    cases h : keepField nv with
    | false =>
      simp only [List.map_cons, List.flatten_cons, encodeFieldEntry, h, if_false,
        Bool.false_eq_true, List.nil_append, List.filter_cons, if_neg]
      exact ih
    | true =>
      simp only [List.map_cons, List.flatten_cons, encodeFieldEntry, h, if_true,
        List.filter_cons]
      simp only [List.map_cons, List.cons_append, List.append_assoc]
      simp only [List.append_assoc] at ih
      rw [ih]
      simp [encodeFieldPart, encodeFromParts, partTail, partHeaderBytes, fieldAsPart,
        cdLineOf]

/-- The re-encoded body is the initial `--boundary` followed by the encoded
expected parts. -/
theorem encode_eq_parts (b fid : Bytes) (fields : List (Bytes × Bytes))
    (files : List FileRec) :
    encodeMultipart b fid fields files
      = dash2 ++ b ++ encodeFromParts b (expectedParts fid fields files) := by
  rw [encodeMultipart]
  have h1 : encodeFieldPart b (ascii "formId") fid ++
      (fields.map (encodeFieldEntry b)).flatten ++
      (files.map (encodeFilePart b)).flatten ++ closeDelim b
      = encodeFieldPart b (ascii "formId") fid ++
        ((fields.map (encodeFieldEntry b)).flatten ++
          ((files.map (encodeFilePart b)).flatten ++ closeDelim b)) := by
    simp [List.append_assoc]
  rw [h1, encodeFiles_eq, encodeFields_eq]
  simp [encodeFieldPart, encodeFromParts, partTail, partHeaderBytes, expectedParts,
    fieldAsPart, cdLineOf]

/-- Every expected part of a well-formed submission is well-formed. -/
theorem expectedParts_wf (b fid : Bytes) (fields : List (Bytes × Bytes))
    (files : List FileRec) (h : wfSubmission b fid fields files = true) :
    ∀ p ∈ expectedParts fid fields files, wfPart b p = true := by
  simp only [wfSubmission, Bool.and_eq_true] at h
  obtain ⟨⟨⟨hb, hfid⟩, hfl⟩, hfi⟩ := h
  intro p hp
  simp only [expectedParts, List.mem_cons, List.mem_append, List.mem_map] at hp
  rcases hp with rfl | ⟨nv, hnv, rfl⟩ | ⟨f2, hf2, rfl⟩
  · simp only [wfPart]
    have : headerSafe (ascii "formId") = true := by decide
    simp [this, hfid]
  · have hnv' : nv ∈ fields := List.mem_of_mem_filter hnv
    have := List.all_eq_true.mp hfl nv hnv'
    simp only [Bool.and_eq_true] at this
    simp [wfPart, fieldAsPart, this.1, this.2]
  · have := List.all_eq_true.mp hfi f2 hf2
    simp only [Bool.and_eq_true] at this
    simp [wfPart, fileAsPart, this.1.1.1, this.1.1.2, this.1.2, this.2]

/-- Round-trip: the spec-modelled standards-compliant parser recovers
exactly the expected parts from the re-encoded body of a well-formed
submission. -/
theorem parse_encode (b fid : Bytes) (fields : List (Bytes × Bytes))
    (files : List FileRec) (hwf : wfSubmission b fid fields files = true) :
    parseMultipart b (encodeMultipart b fid fields files)
      = some (expectedParts fid fields files) := by
  rw [encode_eq_parts, parseMultipart]
  have hsh : dash2 ++ b ++ encodeFromParts b (expectedParts fid fields files)
      = (dash2 ++ b) ++ encodeFromParts b (expectedParts fid fields files) := by
    simp [List.append_assoc]
  rw [hsh, if_pos (isPrefixOf_append_self (dash2 ++ b) _), List.drop_left]
  exact parseParts_encodeFromParts b _ _ (Nat.lt_succ_self _)
    (expectedParts_wf b fid fields files hwf)

/-! ## Helper lemmas: the submission accumulator -/

theorem addChunk_keys (streams : List (Nat × StreamRec)) (k : Nat) (c : Bytes) :
    (addChunk streams k c).map Prod.fst = streams.map Prod.fst := by
  simp only [addChunk, List.map_map]
  congr 1
  funext kv
  by_cases h : kv.1 = k <;> simp [h]

theorem lookupStream_none_iff (streams : List (Nat × StreamRec)) (k : Nat) :
    lookupStream streams k = none ↔ k ∉ streams.map Prod.fst := by
  induction streams with
  | nil => simp [lookupStream]
  | cons kv t ih =>
    obtain ⟨m, sr⟩ := kv
    by_cases h : m = k
    · subst h; simp [lookupStream]
    · simp [lookupStream, h, ih, Ne.symm h]

/-- If every key of a nodup `keys` list is drained (the filtered `ended`
list has full length), then each key is in `ended`. -/
theorem ended_full (keys ended : List Nat) (hkN : keys.Nodup) (heN : ended.Nodup)
    (hlen : (ended.filter (fun x => decide (x ∈ keys))).length = keys.length)
    (k : Nat) (hk : k ∈ keys) : k ∈ ended := by
  have hsub : (ended.filter (fun x => decide (x ∈ keys))) ⊆ keys := by
    intro x hx
    have := List.of_mem_filter hx
    simpa using this
  have hnd : (ended.filter (fun x => decide (x ∈ keys))).Nodup := heN.filter _
  have hsp : List.Subperm (ended.filter (fun x => decide (x ∈ keys))) keys :=
    hnd.subperm hsub
  have hperm : List.Perm (ended.filter (fun x => decide (x ∈ keys))) keys :=
    hsp.perm_of_length_le (by omega)
  have hkf : k ∈ ended.filter (fun x => decide (x ∈ keys)) := hperm.mem_iff.mpr hk
  exact List.mem_of_mem_filter hkf

/-- The number of `fetch` calls issued by one `forwardRequest` invocation:
zero when the configured form id trims to empty (the invocation throws
first), one otherwise. -/
theorem forwardRequest_calls (cfg : Config) (b : Bytes)
    (fields : List (Bytes × Bytes)) (files : List FileRec) (net : Outbound → Upstream) :
    (forwardRequest cfg b fields files net).1.toList.length
      = if trimStr cfg.formId = "" then 0 else 1 := by
  rw [forwardRequest]
  by_cases h0 : cfg.formId = ""
  · have ht : trimStr cfg.formId = "" := by rw [h0]; rfl
    have hE : trimStr "" = "" := rfl
    simp [h0, ht, hE]
  · rw [if_neg h0]
    by_cases h1 : trimStr cfg.formId = "" <;> simp [h1]

/-- Invariant propagation: the number of recorded outbound calls always
equals the number of `forwardRequest` invocations (or zero when the form id
trims to empty). -/
theorem runCallsAux (cfg : Config) (b : Bytes) (net : Outbound → Upstream) :
    ∀ (evs : List Ev) (st : MPState),
    st.calls.length = (if trimStr cfg.formId = "" then 0 else st.forwards) →
    (evs.foldl (stepMP cfg b net) st).calls.length
      = (if trimStr cfg.formId = "" then 0 else (evs.foldl (stepMP cfg b net) st).forwards) := by
  intro evs
  induction evs with
  | nil => intro st h; exact h
  | cons e rest ih =>
    intro st h
    rw [List.foldl_cons]
    apply ih
    have hdo : ∀ st2 : MPState,
        st2.calls.length = (if trimStr cfg.formId = "" then 0 else st2.forwards) →
        (doForward cfg b net st2).calls.length
          = (if trimStr cfg.formId = "" then 0 else (doForward cfg b net st2).forwards) := by
      intro st2 h2
      simp only [doForward]
      rw [List.length_append, h2, forwardRequest_calls]
      by_cases h1 : trimStr cfg.formId = "" <;> simp [h1]
    have hcf : ∀ st2 : MPState,
        st2.calls.length = (if trimStr cfg.formId = "" then 0 else st2.forwards) →
        (checkAndForward cfg b net st2).calls.length
          = (if trimStr cfg.formId = "" then 0 else (checkAndForward cfg b net st2).forwards) := by
      intro st2 h2
      rw [checkAndForward]
      split
      · exact hdo st2 h2
      · exact h2
    cases e with
    | field n v =>
      simp only [stepMP]
      split
      · exact h
      · exact h
    | fileStart k n fn mt =>
      simp only [stepMP]
      split
      · exact h
      · exact h
    | fileChunk k c => exact h
    | fileEnd k =>
      simp only [stepMP]
      cases hl : lookupStream st.streams k with
      | none => exact h
      | some sr => exact hcf _ h
    | fileError k m => exact h
    | parseError m => exact h
    | finish =>
      simp only [stepMP]
      split
      · exact hdo _ h
      · exact hcf _ h

/-- Invariant propagation for the completion counters: along a well-formed
event trace, the number of `forwardRequest` invocations is one exactly when
the parser has finished and the drained count has reached the opened count,
and zero otherwise. -/
theorem runForwardsAux (cfg : Config) (b : Bytes) (net : Outbound → Upstream) :
    ∀ (evs : List Ev) (st : MPState) (started ended : List Nat),
    validFrom started ended st.fieldsProcessed evs = true →
    (∀ k ∈ st.streams.map Prod.fst, k ∈ started) →
    (st.streams.map Prod.fst).Nodup →
    ended.Nodup →
    (∀ k ∈ ended, k ∈ started) →
    st.pendingFiles = (st.streams.map Prod.fst).length →
    st.completedFiles
      = (ended.filter (fun x => decide (x ∈ st.streams.map Prod.fst))).length →
    st.forwards
      = (if st.fieldsProcessed = true ∧ st.completedFiles = st.pendingFiles then 1 else 0) →
    (evs.foldl (stepMP cfg b net) st).forwards
      = (if (st.fieldsProcessed || finishSeen evs) = true
            ∧ st.completedFiles + drainedFrom (st.streams.map Prod.fst) evs
                = st.pendingFiles + openedCount evs
         then 1 else 0) := by
  intro evs
  induction evs with
  | nil =>
    intro st started ended hv hks hkN heN hes hpend hcomp hforw
    simpa [finishSeen, openedCount, drainedFrom] using hforw
  | cons e rest ih =>
    intro st started ended hv hks hkN heN hes hpend hcomp hforw
    rw [List.foldl_cons]
    cases e with
    | field n v =>
      simp only [validFrom, Bool.and_eq_true, Bool.not_eq_true'] at hv
      obtain ⟨hfin, hv⟩ := hv
      simp only [stepMP]
      split
      · rw [ih st started ended hv hks hkN heN hes hpend hcomp hforw]
        simp [finishSeen, openedCount, drainedFrom, usableStart]
      · rw [ih { st with fields := upsertField st.fields n v } started ended hv hks hkN
          heN hes hpend hcomp hforw]
        simp [finishSeen, openedCount, drainedFrom, usableStart]
    | fileStart k n fn mt =>
      simp only [validFrom, Bool.and_eq_true, Bool.not_eq_true',
        decide_eq_false_iff_not] at hv
      obtain ⟨⟨hfin, hknotin⟩, hv⟩ := hv
      simp only [stepMP]
      by_cases htr : trimBytes fn = []
      · rw [if_pos htr]
        have hks' : ∀ x ∈ st.streams.map Prod.fst, x ∈ k :: started :=
          fun x hx => List.mem_cons_of_mem _ (hks x hx)
        have hes' : ∀ x ∈ ended, x ∈ k :: started :=
          fun x hx => List.mem_cons_of_mem _ (hes x hx)
        rw [ih st (k :: started) ended hv hks' hkN heN hes' hpend hcomp hforw]
        simp [finishSeen, openedCount, drainedFrom, usableStart, htr]
      · rw [if_neg htr]
        have hknotkeys : k ∉ st.streams.map Prod.fst := fun hx => hknotin (hks k hx)
        have hks' : ∀ x ∈ (k :: st.streams.map Prod.fst : List Nat), x ∈ k :: started := by
          intro x hx
          rcases List.mem_cons.mp hx with rfl | hx'
          · exact List.mem_cons_self _ _
          · exact List.mem_cons_of_mem _ (hks x hx')
        have hkN' : (k :: st.streams.map Prod.fst).Nodup :=
          List.nodup_cons.mpr ⟨hknotkeys, hkN⟩
        have hes' : ∀ x ∈ ended, x ∈ k :: started :=
          fun x hx => List.mem_cons_of_mem _ (hes x hx)
        have hpend' : st.pendingFiles + 1 = (k :: st.streams.map Prod.fst).length := by
          simp [hpend]
        have hcomp' : st.completedFiles
            = (ended.filter (fun x => decide (x ∈ k :: st.streams.map Prod.fst))).length := by
          rw [hcomp]
          congr 1
          apply List.filter_congr
          intro x hx
          have hxk : x ≠ k := by
            intro he
            subst he
            exact hknotin (hes x hx)
          simp [hxk]
        have hforw' : st.forwards
            = (if st.fieldsProcessed = true ∧ st.completedFiles = st.pendingFiles + 1
               then 1 else 0) := by
          rw [hforw, hfin]; simp
        have hstep := ih { st with streams := (k, (⟨n, fn, mt, []⟩ : StreamRec)) :: st.streams, pendingFiles := st.pendingFiles + 1 } (k :: started) ended hv hks' hkN' heN hes' hpend' hcomp' hforw'
        rw [hstep]
        refine if_congr ?_ rfl rfl
        simp [finishSeen, openedCount, drainedFrom, usableStart, htr]
        intro _
        omega
    | fileChunk k c =>
      simp only [validFrom, Bool.and_eq_true, decide_eq_true_eq] at hv
      obtain ⟨hkst, hv⟩ := hv
      simp only [stepMP]
      have hkeys := addChunk_keys st.streams k c
      have hks' : ∀ x ∈ (addChunk st.streams k c).map Prod.fst, x ∈ started := by
        rw [hkeys]; exact hks
      have hkN' : ((addChunk st.streams k c).map Prod.fst).Nodup := by
        rw [hkeys]; exact hkN
      have hpend' : st.pendingFiles = ((addChunk st.streams k c).map Prod.fst).length := by
        rw [hkeys]; exact hpend
      have hcomp' : st.completedFiles
          = (ended.filter (fun x => decide (x ∈ (addChunk st.streams k c).map Prod.fst))).length := by
        rw [hkeys]; exact hcomp
      rw [ih { st with streams := addChunk st.streams k c } started ended hv hks' hkN'
          heN hes hpend' hcomp' hforw, hkeys]
      simp [finishSeen, openedCount, drainedFrom, usableStart]
    | fileEnd k =>
      simp only [validFrom, Bool.and_eq_true, Bool.not_eq_true',
        decide_eq_true_eq, decide_eq_false_iff_not] at hv
      obtain ⟨⟨hkmem, hknotended⟩, hv⟩ := hv
      simp only [stepMP]
      have heN' : (k :: ended).Nodup := List.nodup_cons.mpr ⟨hknotended, heN⟩
      have hes' : ∀ x ∈ k :: ended, x ∈ started := by
        intro x hx
        rcases List.mem_cons.mp hx with rfl | hx'
        · exact hkmem
        · exact hes x hx'
      cases hl : lookupStream st.streams k with
      | none =>
        have hknotkeys : k ∉ st.streams.map Prod.fst := (lookupStream_none_iff _ _).mp hl
        have hcomp' : st.completedFiles
            = ((k :: ended).filter (fun x => decide (x ∈ st.streams.map Prod.fst))).length := by
          rw [hcomp, List.filter_cons]
          simp [hknotkeys]
        rw [ih st started (k :: ended) hv hks hkN heN' hes' hpend hcomp' hforw]
        simp [finishSeen, openedCount, drainedFrom, usableStart, hknotkeys]
      | some sr =>
        have hkkeys : k ∈ st.streams.map Prod.fst := by
          by_contra hc
          rw [(lookupStream_none_iff _ _).mpr hc] at hl
          cases hl
        have hcomp' : st.completedFiles + 1
            = ((k :: ended).filter (fun x => decide (x ∈ st.streams.map Prod.fst))).length := by
          rw [hcomp, List.filter_cons]
          simp [hkkeys]
        have hpendpos : 0 < st.pendingFiles := by
          rw [hpend]
          exact List.length_pos.mpr (fun he => by simp [he] at hkkeys)
        simp only [checkAndForward]
        by_cases hfp : st.fieldsProcessed = true
        · by_cases hceq : st.completedFiles + 1 = st.pendingFiles
          · rw [if_pos (by exact ⟨hfp, Or.inr hceq⟩)]
            have hne : st.completedFiles ≠ st.pendingFiles := by omega
            have hforw0 : st.forwards = 0 := by
              rw [hforw]
              simp [hne]
            have hforw' : (doForward cfg b net
                { st with
                  files := if 0 < sr.chunks.flatten.length
                    then st.files ++
                      [⟨sr.name, sr.filename, sr.mimeType, sr.chunks.flatten,
                        sr.chunks.flatten.length⟩]
                    else st.files,
                  completedFiles := st.completedFiles + 1 }).forwards
                = (if st.fieldsProcessed = true ∧ st.completedFiles + 1 = st.pendingFiles
                   then 1 else 0) := by
              simp [doForward, hforw0, hfp, hceq]
            rw [ih (doForward cfg b net
                { st with
                  files := if 0 < sr.chunks.flatten.length
                    then st.files ++
                      [⟨sr.name, sr.filename, sr.mimeType, sr.chunks.flatten,
                        sr.chunks.flatten.length⟩]
                    else st.files,
                  completedFiles := st.completedFiles + 1 })
              started (k :: ended) hv hks hkN heN' hes' hpend hcomp' hforw']
            simp only [doForward, finishSeen, List.any_cons, openedCount, List.filter_cons,
              drainedFrom, if_pos hkkeys, usableStart, Bool.false_eq_true, if_false]
            refine if_congr (and_congr Iff.rfl (by omega)) rfl rfl
          · rw [if_neg (by
              intro hcc
              rcases hcc.2 with h0 | hceq2
              · omega
              · exact hceq hceq2)]
            have hne : st.completedFiles ≠ st.pendingFiles := by
              intro heq
              exact hknotended (ended_full (st.streams.map Prod.fst) ended hkN heN
                (by omega) k hkkeys)
            have hforw0 : st.forwards = 0 := by
              rw [hforw]; simp [hne]
            have hforw' : st.forwards
                = (if st.fieldsProcessed = true ∧ st.completedFiles + 1 = st.pendingFiles
                   then 1 else 0) := by
              rw [hforw0]; simp [hceq]
            rw [ih { st with
                  files := if 0 < sr.chunks.flatten.length
                    then st.files ++
                      [⟨sr.name, sr.filename, sr.mimeType, sr.chunks.flatten,
                        sr.chunks.flatten.length⟩]
                    else st.files,
                  completedFiles := st.completedFiles + 1 }
              started (k :: ended) hv hks hkN heN' hes' hpend hcomp' hforw']
            simp only [doForward, finishSeen, List.any_cons, openedCount, List.filter_cons,
              drainedFrom, if_pos hkkeys, usableStart, Bool.false_eq_true, if_false]
            refine if_congr (and_congr Iff.rfl (by omega)) rfl rfl
        · rw [if_neg (fun hcc => hfp hcc.1)]
          have hforw0 : st.forwards = 0 := by
            rw [hforw]; simp [hfp]
          have hforw' : st.forwards
              = (if st.fieldsProcessed = true ∧ st.completedFiles + 1 = st.pendingFiles
                 then 1 else 0) := by
            rw [hforw0]; simp [hfp]
          rw [ih { st with
                files := if 0 < sr.chunks.flatten.length
                  then st.files ++
                    [⟨sr.name, sr.filename, sr.mimeType, sr.chunks.flatten,
                      sr.chunks.flatten.length⟩]
                  else st.files,
                completedFiles := st.completedFiles + 1 }
            started (k :: ended) hv hks hkN heN' hes' hpend hcomp' hforw']
          simp only [doForward, finishSeen, List.any_cons, openedCount, List.filter_cons,
            drainedFrom, if_pos hkkeys, usableStart, Bool.false_eq_true, if_false]
          refine if_congr (and_congr Iff.rfl (by omega)) rfl rfl
    | fileError k m =>
      simp only [validFrom, Bool.and_eq_true, decide_eq_true_eq] at hv
      obtain ⟨hkst, hv⟩ := hv
      simp only [stepMP]
      rw [ih st started ended hv hks hkN heN hes hpend hcomp hforw]
      simp [finishSeen, openedCount, drainedFrom, usableStart]
    | parseError m =>
      simp only [validFrom] at hv
      simp only [stepMP]
      rw [ih { st with settled := settleFirst st.settled (.rejected m) } started ended
          hv hks hkN heN hes hpend hcomp hforw]
      simp [finishSeen, openedCount, drainedFrom, usableStart]
    | finish =>
      simp only [validFrom, Bool.and_eq_true, Bool.not_eq_true'] at hv
      obtain ⟨hfin, hv⟩ := hv
      simp only [stepMP]
      by_cases hp0 : st.pendingFiles = 0
      · rw [if_pos hp0]
        have hkeys0 : st.streams.map Prod.fst = [] :=
          List.length_eq_zero.mp (by omega)
        have hcomp0 : st.completedFiles = 0 := by
          rw [hcomp, hkeys0]
          simp
        have hforw0 : st.forwards = 0 := by
          rw [hforw, hfin]; simp
        have hforw' : (doForward cfg b net { st with fieldsProcessed := true }).forwards
            = (if (true : Bool) = true ∧ st.completedFiles = st.pendingFiles
               then 1 else 0) := by
          simp [doForward, hforw0, hcomp0, hp0]
        rw [ih (doForward cfg b net { st with fieldsProcessed := true }) started ended
          hv hks hkN heN hes hpend hcomp hforw']
        simp only [doForward, finishSeen, List.any_cons, openedCount, List.filter_cons,
          drainedFrom, usableStart, Bool.false_eq_true, if_false]
        refine if_congr (and_congr (by simp) (by omega)) rfl rfl
      · rw [if_neg hp0, checkAndForward]
        by_cases hce : st.completedFiles = st.pendingFiles
        · rw [if_pos (by exact ⟨rfl, Or.inr hce⟩)]
          have hforw0 : st.forwards = 0 := by
            rw [hforw, hfin]; simp
          have hforw' : (doForward cfg b net { st with fieldsProcessed := true }).forwards
              = (if (true : Bool) = true ∧ st.completedFiles = st.pendingFiles
                 then 1 else 0) := by
            simp [doForward, hforw0, hce]
          rw [ih (doForward cfg b net { st with fieldsProcessed := true }) started ended
            hv hks hkN heN hes hpend hcomp hforw']
          simp only [doForward, finishSeen, List.any_cons, openedCount, List.filter_cons,
            drainedFrom, usableStart, Bool.false_eq_true, if_false]
          refine if_congr (and_congr (by simp) (by omega)) rfl rfl
        · rw [if_neg (by
            intro hcc
            rcases hcc.2 with h0 | hce2
            · exact hp0 h0
            · exact hce hce2)]
          have hforw0 : st.forwards = 0 := by
            rw [hforw, hfin]; simp
          have hforw' : st.forwards
              = (if (true : Bool) = true ∧ st.completedFiles = st.pendingFiles
                 then 1 else 0) := by
            rw [hforw0]; simp [hce]
          rw [ih { st with fieldsProcessed := true } started ended hv hks hkN heN hes
            hpend hcomp hforw']
          simp only [doForward, finishSeen, List.any_cons, openedCount, List.filter_cons,
            drainedFrom, usableStart, Bool.false_eq_true, if_false]
          refine if_congr (and_congr (by simp) (by omega)) rfl rfl

/-! ## Helper lemmas: state projections and field bookkeeping -/

theorem doForward_streams (cfg : Config) (b : Bytes) (net : Outbound → Upstream)
    (st : MPState) : (doForward cfg b net st).streams = st.streams := rfl

theorem doForward_pending (cfg : Config) (b : Bytes) (net : Outbound → Upstream)
    (st : MPState) : (doForward cfg b net st).pendingFiles = st.pendingFiles := rfl

theorem doForward_completed (cfg : Config) (b : Bytes) (net : Outbound → Upstream)
    (st : MPState) : (doForward cfg b net st).completedFiles = st.completedFiles := rfl

theorem doForward_files (cfg : Config) (b : Bytes) (net : Outbound → Upstream)
    (st : MPState) : (doForward cfg b net st).files = st.files := rfl

theorem doForward_fields (cfg : Config) (b : Bytes) (net : Outbound → Upstream)
    (st : MPState) : (doForward cfg b net st).fields = st.fields := rfl

theorem checkAndForward_streams (cfg : Config) (b : Bytes) (net : Outbound → Upstream)
    (st : MPState) : (checkAndForward cfg b net st).streams = st.streams := by
  unfold checkAndForward
  split <;> rfl

theorem checkAndForward_pending (cfg : Config) (b : Bytes) (net : Outbound → Upstream)
    (st : MPState) : (checkAndForward cfg b net st).pendingFiles = st.pendingFiles := by
  unfold checkAndForward
  split <;> rfl

theorem checkAndForward_completed (cfg : Config) (b : Bytes) (net : Outbound → Upstream)
    (st : MPState) : (checkAndForward cfg b net st).completedFiles = st.completedFiles := by
  unfold checkAndForward
  split <;> rfl

theorem checkAndForward_files (cfg : Config) (b : Bytes) (net : Outbound → Upstream)
    (st : MPState) : (checkAndForward cfg b net st).files = st.files := by
  unfold checkAndForward
  split <;> rfl

theorem checkAndForward_fields (cfg : Config) (b : Bytes) (net : Outbound → Upstream)
    (st : MPState) : (checkAndForward cfg b net st).fields = st.fields := by
  unfold checkAndForward
  split <;> rfl

theorem upsertAssoc_keys (n v : Bytes) (fields : List (Bytes × Bytes)) :
    (upsertAssoc n v fields).map Prod.fst
      = (if n ∈ fields.map Prod.fst then fields.map Prod.fst
         else fields.map Prod.fst ++ [n]) := by
  induction fields with
  | nil => simp [upsertAssoc]
  | cons mw t ih =>
    obtain ⟨m, w⟩ := mw
    by_cases h : m = n
    · subst h
      simp [upsertAssoc]
    · simp only [upsertAssoc, if_neg h, List.map_cons, ih]
      by_cases h2 : n ∈ t.map Prod.fst
      · simp [h2, Ne.symm h]
      · simp [h2, Ne.symm h]

theorem upsertField_keys (fields : List (Bytes × Bytes)) (n v : Bytes) :
    (upsertField fields n v).map Prod.fst
      = (if n = ascii "__proto__" then fields.map Prod.fst
         else if n ∈ fields.map Prod.fst then fields.map Prod.fst
         else fields.map Prod.fst ++ [n]) := by
  rw [upsertField]
  by_cases h : n = ascii "__proto__"
  · simp [h]
  · simp [h, upsertAssoc_keys]

theorem addChunk_filenames (streams : List (Nat × StreamRec)) (k : Nat) (c : Bytes)
    (h : ∀ kv ∈ streams, trimBytes kv.2.filename ≠ []) :
    ∀ kv ∈ addChunk streams k c, trimBytes kv.2.filename ≠ [] := by
  intro kv hkv
  simp only [addChunk, List.mem_map] at hkv
  obtain ⟨kv2, hkv2, he⟩ := hkv
  by_cases hk : kv2.1 = k
  · rw [if_pos hk] at he
    subst he
    exact h kv2 hkv2
  · rw [if_neg hk] at he
    subst he
    exact h kv2 hkv2

theorem lookupStream_mem (streams : List (Nat × StreamRec)) (k : Nat) (sr : StreamRec)
    (h : lookupStream streams k = some sr) : (k, sr) ∈ streams := by
  induction streams with
  | nil => simp [lookupStream] at h
  | cons kv t ih =>
    obtain ⟨m, sr2⟩ := kv
    rw [lookupStream] at h
    by_cases hm : m = k
    · rw [if_pos hm] at h
      subst hm
      obtain rfl : sr2 = sr := by simpa using h
      exact List.mem_cons_self _ _
    · rw [if_neg hm] at h
      exact List.mem_cons_of_mem _ (ih h)

theorem fieldOrder_mem (evs : List Ev) : ∀ (acc : List Bytes) (x : Bytes),
    x ∈ fieldOrder acc evs →
    x ∈ acc ∨ (x ≠ ascii "form-name" ∧ x ≠ ascii "bot-field") := by
  induction evs with
  | nil =>
    intro acc x hx
    exact Or.inl hx
  | cons e rest ih =>
    intro acc x hx
    cases e with
    | field n v =>
      rw [fieldOrder] at hx
      by_cases h1 : n = ascii "form-name" ∨ n = ascii "bot-field"
      · rw [if_pos h1] at hx
        exact ih acc x hx
      · rw [if_neg h1] at hx
        by_cases h2 : n = ascii "__proto__"
        · rw [if_pos h2] at hx
          exact ih acc x hx
        · rw [if_neg h2] at hx
          by_cases h3 : n ∈ acc
          · rw [if_pos h3] at hx
            exact ih acc x hx
          · rw [if_neg h3] at hx
            rcases ih _ x hx with hin | hgood
            · rcases List.mem_append.mp hin with hin2 | hin2
              · exact Or.inl hin2
              · have : x = n := by simpa using hin2
                subst this
                push_neg at h1
                exact Or.inr h1
            · exact Or.inr hgood
    | fileStart k n fn mt => exact ih acc x hx
    | fileChunk k c => exact ih acc x hx
    | fileEnd k => exact ih acc x hx
    | fileError k m => exact ih acc x hx
    | parseError m => exact ih acc x hx
    | finish => exact ih acc x hx



/-! ## Small reduction lemmas for the trace functions -/

@[simp] theorem usableStart_field (n v : Bytes) : usableStart (.field n v) = false := rfl

@[simp] theorem usableStart_fileStart (k : Nat) (n fn mt : Bytes) :
    usableStart (.fileStart k n fn mt) = !(trimBytes fn == []) := rfl

@[simp] theorem usableStart_fileChunk (k : Nat) (c : Bytes) :
    usableStart (.fileChunk k c) = false := rfl

@[simp] theorem usableStart_fileEnd (k : Nat) : usableStart (.fileEnd k) = false := rfl

@[simp] theorem usableStart_fileError (k : Nat) (m : String) :
    usableStart (.fileError k m) = false := rfl

@[simp] theorem usableStart_parseError (m : String) :
    usableStart (.parseError m) = false := rfl

@[simp] theorem usableStart_finish : usableStart .finish = false := rfl

@[simp] theorem openedCount_nil : openedCount [] = 0 := rfl

@[simp] theorem openedCount_cons (e : Ev) (rest : List Ev) :
    openedCount (e :: rest) = (if usableStart e = true then 1 else 0) + openedCount rest := by
  by_cases h : usableStart e = true <;> simp [openedCount, List.filter_cons, h] <;> omega

@[simp] theorem drainedFrom_nil (us : List Nat) : drainedFrom us [] = 0 := rfl

@[simp] theorem drainedFrom_field (us : List Nat) (n v : Bytes) (rest : List Ev) :
    drainedFrom us (.field n v :: rest) = drainedFrom us rest := rfl

@[simp] theorem drainedFrom_fileStart (us : List Nat) (k : Nat) (n fn mt : Bytes)
    (rest : List Ev) :
    drainedFrom us (.fileStart k n fn mt :: rest)
      = drainedFrom (if trimBytes fn = [] then us else k :: us) rest := rfl

@[simp] theorem drainedFrom_fileChunk (us : List Nat) (k : Nat) (c : Bytes)
    (rest : List Ev) :
    drainedFrom us (.fileChunk k c :: rest) = drainedFrom us rest := rfl

@[simp] theorem drainedFrom_fileEnd (us : List Nat) (k : Nat) (rest : List Ev) :
    drainedFrom us (.fileEnd k :: rest)
      = (if k ∈ us then 1 else 0) + drainedFrom us rest := rfl

@[simp] theorem drainedFrom_fileError (us : List Nat) (k : Nat) (m : String)
    (rest : List Ev) :
    drainedFrom us (.fileError k m :: rest) = drainedFrom us rest := rfl

@[simp] theorem drainedFrom_parseError (us : List Nat) (m : String) (rest : List Ev) :
    drainedFrom us (.parseError m :: rest) = drainedFrom us rest := rfl

@[simp] theorem drainedFrom_finish (us : List Nat) (rest : List Ev) :
    drainedFrom us (.finish :: rest) = drainedFrom us rest := rfl

@[simp] theorem finishSeen_nil : finishSeen [] = false := rfl

@[simp] theorem finishSeen_cons_field (n v : Bytes) (rest : List Ev) :
    finishSeen (.field n v :: rest) = finishSeen rest := by simp [finishSeen]

@[simp] theorem finishSeen_cons_fileStart (k : Nat) (n fn mt : Bytes) (rest : List Ev) :
    finishSeen (.fileStart k n fn mt :: rest) = finishSeen rest := by simp [finishSeen]

@[simp] theorem finishSeen_cons_fileChunk (k : Nat) (c : Bytes) (rest : List Ev) :
    finishSeen (.fileChunk k c :: rest) = finishSeen rest := by simp [finishSeen]

@[simp] theorem finishSeen_cons_fileEnd (k : Nat) (rest : List Ev) :
    finishSeen (.fileEnd k :: rest) = finishSeen rest := by simp [finishSeen]

@[simp] theorem finishSeen_cons_fileError (k : Nat) (m : String) (rest : List Ev) :
    finishSeen (.fileError k m :: rest) = finishSeen rest := by simp [finishSeen]

@[simp] theorem finishSeen_cons_parseError (m : String) (rest : List Ev) :
    finishSeen (.parseError m :: rest) = finishSeen rest := by simp [finishSeen]

@[simp] theorem finishSeen_cons_finish (rest : List Ev) :
    finishSeen (.finish :: rest) = true := by simp [finishSeen]

theorem fieldOrder_field_cons (acc : List Bytes) (n v : Bytes) (rest : List Ev) :
    fieldOrder acc (.field n v :: rest)
      = fieldOrder
          (if n = ascii "form-name" ∨ n = ascii "bot-field" then acc
           else if n = ascii "__proto__" then acc
           else if n ∈ acc then acc else acc ++ [n]) rest := rfl

/-- Invariant propagation for the accumulator along any event trace (no
well-formedness needed): `pendingFiles` counts exactly the usable file
starts, `completedFiles` counts exactly the drained tracked streams, every
tracked stream has a usable filename, every accumulated file record has a
usable filename and a non-empty buffer, and the field keys follow first-seen
order. -/
theorem runStateAux (cfg : Config) (b : Bytes) (net : Outbound → Upstream) :
    ∀ (evs : List Ev) (st : MPState),
    (∀ kv ∈ st.streams, trimBytes kv.2.filename ≠ []) →
    (evs.foldl (stepMP cfg b net) st).pendingFiles = st.pendingFiles + openedCount evs
    ∧ (evs.foldl (stepMP cfg b net) st).completedFiles
        = st.completedFiles + drainedFrom (st.streams.map Prod.fst) evs
    ∧ (∀ kv ∈ (evs.foldl (stepMP cfg b net) st).streams, trimBytes kv.2.filename ≠ [])
    ∧ (∀ f ∈ (evs.foldl (stepMP cfg b net) st).files,
        f ∈ st.files ∨ (trimBytes f.filename ≠ [] ∧ f.buffer ≠ []))
    ∧ (evs.foldl (stepMP cfg b net) st).fields.map Prod.fst
        = fieldOrder (st.fields.map Prod.fst) evs := by
  intro evs
  induction evs with
  | nil =>
    intro st hstr
    refine ⟨by simp, by simp, hstr, fun f hf => Or.inl hf, by simp [fieldOrder]⟩
  | cons e rest ih =>
    intro st hstr
    rw [List.foldl_cons]
    cases e with
    | field n v =>
      simp only [stepMP]
      by_cases hres : n = ascii "form-name" ∨ n = ascii "bot-field"
      · rw [if_pos hres]
        obtain ⟨ih1, ih2, ih3, ih4, ih5⟩ := ih st hstr
        refine ⟨by simp [ih1], by simp [ih2], ih3, ih4, ?_⟩
        rw [ih5, fieldOrder_field_cons, if_pos hres]
      · rw [if_neg hres]
        obtain ⟨ih1, ih2, ih3, ih4, ih5⟩ :=
          ih { st with fields := upsertField st.fields n v } hstr
        refine ⟨by simp [ih1], by simp [ih2], ih3, ih4, ?_⟩
        rw [ih5, fieldOrder_field_cons, if_neg hres]
        have he : ({ st with fields := upsertField st.fields n v } : MPState).fields.map Prod.fst
            = (upsertField st.fields n v).map Prod.fst := rfl
        rw [he, upsertField_keys]
    | fileStart k n fn mt =>
      simp only [stepMP]
      by_cases htr : trimBytes fn = []
      · rw [if_pos htr]
        obtain ⟨ih1, ih2, ih3, ih4, ih5⟩ := ih st hstr
        refine ⟨by simp [ih1, htr], by simp [ih2, htr], ih3, ih4, ?_⟩
        exact ih5
      · rw [if_neg htr]
        have hstr2 : ∀ kv ∈ ((k, (⟨n, fn, mt, []⟩ : StreamRec)) :: st.streams),
            trimBytes kv.2.filename ≠ [] := by
          intro kv hkv
          rcases List.mem_cons.mp hkv with rfl | hkv2
          · exact htr
          · exact hstr kv hkv2
        obtain ⟨ih1, ih2, ih3, ih4, ih5⟩ := ih { st with streams := (k, (⟨n, fn, mt, []⟩ : StreamRec)) :: st.streams, pendingFiles := st.pendingFiles + 1 } hstr2
        refine ⟨?_, ?_, ih3, ih4, ?_⟩
        · rw [ih1]
          simp [htr]
          omega
        · rw [ih2]
          simp [htr]
        · exact ih5
    | fileChunk k c =>
      simp only [stepMP]
      obtain ⟨ih1, ih2, ih3, ih4, ih5⟩ :=
        ih { st with streams := addChunk st.streams k c }
          (addChunk_filenames st.streams k c hstr)
      refine ⟨by simp [ih1], ?_, ih3, ih4, ?_⟩
      · rw [ih2]
        have he : ({ st with streams := addChunk st.streams k c } : MPState).streams.map Prod.fst
            = st.streams.map Prod.fst := addChunk_keys st.streams k c
        rw [he]
        simp
      · exact ih5
    | fileEnd k =>
      simp only [stepMP]
      cases hl : lookupStream st.streams k with
      | none =>
        have hknotkeys : k ∉ st.streams.map Prod.fst := (lookupStream_none_iff _ _).mp hl
        obtain ⟨ih1, ih2, ih3, ih4, ih5⟩ := ih st hstr
        refine ⟨by simp [ih1], by simp [ih2, hknotkeys], ih3, ih4, ?_⟩
        exact ih5
      | some sr =>
        have hkkeys : k ∈ st.streams.map Prod.fst := by
          by_contra hc
          rw [(lookupStream_none_iff _ _).mpr hc] at hl
          cases hl
        have hsrgood : trimBytes sr.filename ≠ [] :=
          hstr (k, sr) (lookupStream_mem st.streams k sr hl)
        have hstr2 : ∀ kv ∈ (checkAndForward cfg b net
            { st with
              files := if 0 < sr.chunks.flatten.length
                then st.files ++
                  [⟨sr.name, sr.filename, sr.mimeType, sr.chunks.flatten,
                    sr.chunks.flatten.length⟩]
                else st.files,
              completedFiles := st.completedFiles + 1 }).streams,
            trimBytes kv.2.filename ≠ [] := by
          rw [checkAndForward_streams]
          exact hstr
        obtain ⟨ih1, ih2, ih3, ih4, ih5⟩ := ih _ hstr2
        refine ⟨?_, ?_, ih3, ?_, ?_⟩
        · rw [ih1, checkAndForward_pending]
          simp
        · rw [ih2, checkAndForward_completed, checkAndForward_streams]
          simp [hkkeys]
          omega
        · intro f hf
          rcases ih4 f hf with hin | hgood
          · rw [checkAndForward_files] at hin
            by_cases hbuf : 0 < sr.chunks.flatten.length
            · rw [if_pos hbuf] at hin
              have hin2 : f ∈ st.files ∨
                  f ∈ [(⟨sr.name, sr.filename, sr.mimeType, sr.chunks.flatten,
                    sr.chunks.flatten.length⟩ : FileRec)] := by
                simpa using List.mem_append.mp hin
              rcases hin2 with h | h
              · exact Or.inl h
              · obtain rfl : f = (⟨sr.name, sr.filename, sr.mimeType, sr.chunks.flatten,
                    sr.chunks.flatten.length⟩ : FileRec) := by simpa using h
                refine Or.inr ⟨hsrgood, ?_⟩
                exact List.length_pos.mp hbuf
            · rw [if_neg hbuf] at hin
              exact Or.inl hin
          · exact Or.inr hgood
        · have he2 := ih5
          rw [checkAndForward_fields] at he2
          exact he2
    | fileError k m =>
      simp only [stepMP]
      obtain ⟨ih1, ih2, ih3, ih4, ih5⟩ := ih st hstr
      refine ⟨by simp [ih1], by simp [ih2], ih3, ih4, ?_⟩
      exact ih5
    | parseError m =>
      simp only [stepMP]
      obtain ⟨ih1, ih2, ih3, ih4, ih5⟩ :=
        ih { st with settled := settleFirst st.settled (.rejected m) } hstr
      refine ⟨by simp [ih1], by simp [ih2], ih3, ih4, ?_⟩
      exact ih5
    | finish =>
      simp only [stepMP]
      by_cases hp0 : st.pendingFiles = 0
      · rw [if_pos hp0]
        obtain ⟨ih1, ih2, ih3, ih4, ih5⟩ :=
          ih (doForward cfg b net { st with fieldsProcessed := true }) hstr
        refine ⟨?_, ?_, ih3, ih4, ?_⟩
        · rw [ih1, doForward_pending]
          simp
        · rw [ih2, doForward_completed, doForward_streams]
          simp
        · exact ih5
      · rw [if_neg hp0]
        have hstr2 : ∀ kv ∈ (checkAndForward cfg b net
            { st with fieldsProcessed := true }).streams,
            trimBytes kv.2.filename ≠ [] := by
          rw [checkAndForward_streams]
          exact hstr
        obtain ⟨ih1, ih2, ih3, ih4, ih5⟩ := ih _ hstr2
        refine ⟨?_, ?_, ih3, ?_, ?_⟩
        · rw [ih1, checkAndForward_pending]
          simp
        · rw [ih2, checkAndForward_completed, checkAndForward_streams]
          simp
        · intro f hf
          rcases ih4 f hf with hin | hgood
          · rw [checkAndForward_files] at hin
            exact Or.inl hin
          · exact Or.inr hgood
        · have he2 := ih5
          rw [checkAndForward_fields] at he2
          exact he2


/-! ## Claim theorems -/

/-- C1: for every well-formed multipart event trace, `forwardRequest` is
invoked exactly once when the parser has signaled end-of-stream and the
number of drained usable file streams equals the number of opened usable
file streams (in particular immediately on `finish` when no file stream was
opened), and not at all otherwise — for every interleaving of field, file,
drain and finish events; moreover the outbound upload call is issued once
per invocation (unless the configured form id trims to empty, in which case
the invocation throws before `fetch`). -/
theorem c1_forward_exactly_on_completion (cfg : Config) (b : Bytes)
    (net : Outbound → Upstream) (evs : List Ev) (h : ValidTrace evs) :
    (runMP cfg b net evs).forwards
      = (if finishSeen evs = true ∧ drainedCount evs = openedCount evs then 1 else 0)
    ∧ (runMP cfg b net evs).calls.length
      = (if trimStr cfg.formId = "" then 0 else (runMP cfg b net evs).forwards) := by
  constructor
  · have haux := runForwardsAux cfg b net evs initMP [] [] h
      (by simp [initMP]) (by simp [initMP]) List.nodup_nil (by simp [initMP])
      (by simp [initMP]) (by simp [initMP]) (by simp [initMP])
    simpa [runMP, initMP, drainedCount] using haux
  · exact runCallsAux cfg b net evs initMP (by simp [initMP])

/-- C1 witness: the theorem instantiated on a concrete trace where the file
stream drains after the parser finishes. -/
theorem c1_witness :
    (runMP exCfg exBoundary exNet exEvents).forwards
      = (if finishSeen exEvents = true ∧ drainedCount exEvents = openedCount exEvents
         then 1 else 0)
    ∧ (runMP exCfg exBoundary exNet exEvents).calls.length
      = (if trimStr exCfg.formId = "" then 0
         else (runMP exCfg exBoundary exNet exEvents).forwards) :=
  c1_forward_exactly_on_completion exCfg exBoundary exNet exEvents (by decide)

/-- C9: a POST request with any of the three configuration values missing
(falsy) is answered with the 500 missing-configuration response and no
outbound call is made. -/
theorem c9_missing_config (cfg : Config) (ev : Event) (b : Bytes)
    (net : Outbound → Upstream)
    (hm : ev.httpMethod = "POST")
    (hc : cfg.baseUrl = "" ∨ cfg.formId = "" ∨ cfg.apiKey = "") :
    createMailerHandler cfg ev b net = ([], some missingConfigResponse)
    ∧ missingConfigResponse.statusCode = 500
    ∧ missingConfigResponse.body
        = .obj [("success", .bool false), ("error", .str missingConfigMsg)] := by
  refine ⟨?_, rfl, rfl⟩
  rw [createMailerHandler, if_neg (by simp [hm]), if_pos hc]

/-- C9 witness: the theorem instantiated on a concrete request with the API
credential missing. -/
theorem c9_witness :
    createMailerHandler exCfgMissing exJsonBadEvent exBoundary exNet
      = ([], some missingConfigResponse)
    ∧ missingConfigResponse.statusCode = 500
    ∧ missingConfigResponse.body
        = .obj [("success", .bool false), ("error", .str missingConfigMsg)] :=
  c9_missing_config exCfgMissing exJsonBadEvent exBoundary exNet rfl
    (by right; right; rfl)

/-- C10: a POST request on the JSON path whose body fails to parse is
answered with status 500, `success:false` and the parse error message, and
no outbound call is made. -/
theorem c10_invalid_json (cfg : Config) (ev : Event) (b : Bytes)
    (net : Outbound → Upstream) (m : String)
    (hm : ev.httpMethod = "POST")
    (hc1 : cfg.baseUrl ≠ "") (hc2 : cfg.formId ≠ "") (hc3 : cfg.apiKey ≠ "")
    (hct : strContains ev.contentType "multipart/form-data" = false)
    (hp : ev.parsedBody = .error m) (hm0 : m ≠ "") :
    createMailerHandler cfg ev b net = ([], some (internalError m))
    ∧ internalError m
        = { statusCode := 500, headers := stdHeaders,
            body := .obj [("success", .bool false), ("error", .str m)] } := by
  constructor
  · rw [createMailerHandler, if_neg (by simp [hm]),
      if_neg (by simp [hc1, hc2, hc3]), if_neg (by simp [hct])]
    rw [hp]
    rfl
  · simp [internalError, hm0]

/-- C10 witness: the theorem instantiated on a concrete malformed JSON
request. -/
theorem c10_witness :
    createMailerHandler exCfg exJsonBadEvent exBoundary exNet
      = ([], some (internalError "Unexpected token o in JSON at position 1"))
    ∧ internalError "Unexpected token o in JSON at position 1"
        = { statusCode := 500, headers := stdHeaders,
            body := .obj [("success", .bool false),
              ("error", .str "Unexpected token o in JSON at position 1")] } :=
  c10_invalid_json exCfg exJsonBadEvent exBoundary exNet _
    rfl (by decide) (by decide) (by decide) (by decide) rfl (by decide)

/-- C6: for a JSON downstream response, both response normalizers pass the
upstream JSON body through verbatim with the upstream status on a failing
status, and wrap it as `{success:true, data}` with status 200 on a
successful status. -/
theorem c6_json_upstream (r : Upstream)
    (h : strContains r.contentType "application/json" = true) :
    (isOk r.status = false →
      normalizeMultipartResponse r
        = { statusCode := r.status, headers := stdHeaders, body := r.jsonBody }
      ∧ normalizeJsonResponse r
        = { statusCode := r.status, headers := stdHeaders, body := r.jsonBody })
    ∧ (isOk r.status = true →
      normalizeMultipartResponse r
        = { statusCode := 200, headers := stdHeaders,
            body := .obj [("success", .bool true), ("data", r.jsonBody)] }
      ∧ normalizeJsonResponse r
        = { statusCode := 200, headers := stdHeaders,
            body := .obj [("success", .bool true), ("data", r.jsonBody)] }) := by
  constructor
  · intro hok
    constructor
    · simp [normalizeMultipartResponse, h, hok]
    · simp [normalizeJsonResponse, h, hok]
  · intro hok
    constructor
    · simp [normalizeMultipartResponse, h, hok]
    · simp [normalizeJsonResponse, h, hok]

/-- C6 witness: the theorem instantiated on a concrete failing and a
concrete successful JSON response. -/
theorem c6_witness :
    (normalizeMultipartResponse exJsonFailUpstream
        = { statusCode := exJsonFailUpstream.status, headers := stdHeaders,
            body := exJsonFailUpstream.jsonBody }
      ∧ normalizeJsonResponse exJsonFailUpstream
        = { statusCode := exJsonFailUpstream.status, headers := stdHeaders,
            body := exJsonFailUpstream.jsonBody })
    ∧ (normalizeMultipartResponse exJsonOkUpstream
        = { statusCode := 200, headers := stdHeaders,
            body := .obj [("success", .bool true), ("data", exJsonOkUpstream.jsonBody)] }
      ∧ normalizeJsonResponse exJsonOkUpstream
        = { statusCode := 200, headers := stdHeaders,
            body := .obj [("success", .bool true), ("data", exJsonOkUpstream.jsonBody)] }) :=
  ⟨(c6_json_upstream exJsonFailUpstream (by decide)).1 (by decide),
   (c6_json_upstream exJsonOkUpstream (by decide)).2 (by decide)⟩


/-- C5: for a non-JSON downstream response, both normalizers return a
failure envelope whose status is the upstream status (500 when zero), with
`success:false` and only a short details string, independent of the raw
upstream body text (which is never included); and neither path ever issues
more than one outbound call (no retry). -/
theorem c5_nonjson_upstream (r : Upstream)
    (h : strContains r.contentType "application/json" = false) :
    (normalizeMultipartResponse r).statusCode = (if r.status = 0 then 500 else r.status)
    ∧ (normalizeJsonResponse r).statusCode = (if r.status = 0 then 500 else r.status)
    ∧ (normalizeMultipartResponse r).body
        = .obj [("success", .bool false),
            ("error", .str ("Mailer API returned invalid response (" ++
              toString r.status ++ "). Check mailer logs.")),
            ("details", .str (if strContains r.contentType "html" then
              "Received HTML instead of JSON"
            else "Content-Type: " ++ r.contentType))]
    ∧ (normalizeJsonResponse r).body
        = .obj [("success", .bool false),
            ("error", .str ("Mailer API returned invalid response (" ++
              toString r.status ++ "). Check mailer logs.")),
            ("details", .str (if strContains r.contentType "html" then
              "Received HTML instead of JSON - check mailer URL"
            else "Content-Type: " ++ r.contentType))]
    ∧ (∀ t, normalizeMultipartResponse { r with textBody := t }
        = normalizeMultipartResponse r)
    ∧ (∀ t, normalizeJsonResponse { r with textBody := t } = normalizeJsonResponse r)
    ∧ (∀ (cfg : Config) (parsed : Except String Json) (net : Outbound → Upstream),
        (handleJsonRequest cfg parsed net).1.length ≤ 1)
    ∧ (∀ (cfg : Config) (b : Bytes) (net : Outbound → Upstream) (evs : List Ev),
        ValidTrace evs → (runMP cfg b net evs).calls.length ≤ 1) := by
  refine ⟨?_, ?_, ?_, ?_, ?_, ?_, ?_, ?_⟩
  · simp [normalizeMultipartResponse, h]
  · simp [normalizeJsonResponse, h]
  · simp [normalizeMultipartResponse, h]
  · simp [normalizeJsonResponse, h]
  · intro t
    cases r
    simp [normalizeMultipartResponse]
  · intro t
    cases r
    simp [normalizeJsonResponse]
  · intro cfg parsed net
    cases parsed with
    | error m => simp [handleJsonRequest]
    | ok j =>
      rw [handleJsonRequest]
      cases hb : (jsDelete "form-name" j).bind (jsDelete "bot-field") with
      | error m => simp
      | ok s => simp
  · intro cfg b2 net2 evs hval
    have hca := runCallsAux cfg b2 net2 evs initMP (by simp [initMP])
    have hfw := runForwardsAux cfg b2 net2 evs initMP [] [] hval
      (by simp [initMP]) (by simp [initMP]) List.nodup_nil (by simp [initMP])
      (by simp [initMP]) (by simp [initMP]) (by simp [initMP])
    rw [runMP] at *
    rw [hca, hfw]
    by_cases ht : trimStr cfg.formId = ""
    · simp [ht]
    · rw [if_neg ht]
      split <;> omega

/-- C5 witness: the theorem instantiated on a concrete 503 HTML response. -/
theorem c5_witness :
    (normalizeMultipartResponse exHtmlUpstream).statusCode
      = (if exHtmlUpstream.status = 0 then 500 else exHtmlUpstream.status)
    ∧ (normalizeJsonResponse exHtmlUpstream).statusCode
      = (if exHtmlUpstream.status = 0 then 500 else exHtmlUpstream.status)
    ∧ (normalizeMultipartResponse exHtmlUpstream).body
        = .obj [("success", .bool false),
            ("error", .str ("Mailer API returned invalid response (" ++
              toString exHtmlUpstream.status ++ "). Check mailer logs.")),
            ("details", .str (if strContains exHtmlUpstream.contentType "html" then
              "Received HTML instead of JSON"
            else "Content-Type: " ++ exHtmlUpstream.contentType))]
    ∧ (normalizeJsonResponse exHtmlUpstream).body
        = .obj [("success", .bool false),
            ("error", .str ("Mailer API returned invalid response (" ++
              toString exHtmlUpstream.status ++ "). Check mailer logs.")),
            ("details", .str (if strContains exHtmlUpstream.contentType "html" then
              "Received HTML instead of JSON - check mailer URL"
            else "Content-Type: " ++ exHtmlUpstream.contentType))]
    ∧ (∀ t, normalizeMultipartResponse { exHtmlUpstream with textBody := t }
        = normalizeMultipartResponse exHtmlUpstream)
    ∧ (∀ t, normalizeJsonResponse { exHtmlUpstream with textBody := t }
        = normalizeJsonResponse exHtmlUpstream)
    ∧ (∀ (cfg : Config) (parsed : Except String Json) (net : Outbound → Upstream),
        (handleJsonRequest cfg parsed net).1.length ≤ 1)
    ∧ (∀ (cfg : Config) (b : Bytes) (net : Outbound → Upstream) (evs : List Ev),
        ValidTrace evs → (runMP cfg b net evs).calls.length ≤ 1) :=
  c5_nonjson_upstream exHtmlUpstream (by decide)

/-- C7: on every multipart event trace, a file part with an empty or
whitespace-only filename never increments the pending-file counter
(`pendingFiles` counts exactly the usable starts), a drained stream always
counts toward `completedFiles` (which equals the drained count, zero-byte
drains included), and every accumulated file record — hence every file in
the re-encoded body — has a usable filename and a non-empty payload. -/
theorem c7_file_filtering (cfg : Config) (b : Bytes) (net : Outbound → Upstream)
    (evs : List Ev) :
    (runMP cfg b net evs).pendingFiles = openedCount evs
    ∧ (runMP cfg b net evs).completedFiles = drainedCount evs
    ∧ (∀ f ∈ (runMP cfg b net evs).files,
        trimBytes f.filename ≠ [] ∧ f.buffer ≠ []) := by
  obtain ⟨h1, h2, h3, h4, h5⟩ := runStateAux cfg b net evs initMP (by simp [initMP])
  refine ⟨by simpa [runMP, initMP] using h1,
    by simpa [runMP, initMP, drainedCount] using h2, ?_⟩
  intro f hf
  rcases h4 f hf with hin | hgood
  · simp [initMP] at hin
  · exact hgood

/-- C7 witness: the theorem instantiated on a concrete trace producing one
file record. -/
theorem c7_witness :
    (runMP exCfg exBoundary exNet exEvents).pendingFiles = openedCount exEvents
    ∧ (runMP exCfg exBoundary exNet exEvents).completedFiles = drainedCount exEvents
    ∧ (trimBytes exFileRec.filename ≠ [] ∧ exFileRec.buffer ≠ []) :=
  ⟨(c7_file_filtering exCfg exBoundary exNet exEvents).1,
   (c7_file_filtering exCfg exBoundary exNet exEvents).2.1,
   (c7_file_filtering exCfg exBoundary exNet exEvents).2.2 exFileRec (by decide)⟩


/-- C2 counterexample: with a field value that contains the generated
boundary's part delimiter, re-parsing the re-encoder's output yields nothing
at all (the parse fails), so the round-trip does not recover the original
Field for arbitrary field values. -/
theorem c2_counterexample :
    parseMultipart exBoundary
      (encodeMultipart exBoundary exFid [(ascii "a", exBadValue)] []) = none := by
  decide

/-- C2 (amended): provided the part delimiter `CRLF --boundary` does not
occur early in the formId payload, any field value, or any file payload, and
names, filenames and mime types contain no quote/CR/LF bytes, and no
submission field is named `formId`, `form-name` or `bot-field`, re-parsing
the re-encoder's output with the standards-compliant parser yields exactly
the `formId` control part followed by the submission's Fields (name, value)
and FileParts (name, filename, mimeType, byte-exact payload), in order. -/
theorem c2_roundtrip_amended (b fid : Bytes) (fields : List (Bytes × Bytes))
    (files : List FileRec)
    (hwf : wfSubmission b fid fields files = true)
    (hnores : fields.all keepField = true) :
    parseMultipart b (encodeMultipart b fid fields files)
      = some (⟨ascii "formId", none, none, fid⟩ ::
          (fields.map fieldAsPart ++ files.map fileAsPart)) := by
  rw [parse_encode b fid fields files hwf]
  rw [expectedParts, List.filter_eq_self.mpr (List.all_eq_true.mp hnores)]

/-- C2 witness: the amended theorem instantiated on a concrete one-field,
one-file submission. -/
theorem c2_witness :
    parseMultipart exBoundary (encodeMultipart exBoundary exFid exFields exFiles)
      = some (⟨ascii "formId", none, none, exFid⟩ ::
          (exFields.map fieldAsPart ++ exFiles.map fileAsPart)) :=
  c2_roundtrip_amended exBoundary exFid exFields exFiles (by decide) (by decide)

/-- C4: the re-encoded body, delimited by the generated boundary, exhibits
the `formId` part first, then the non-reserved fields in list order, then
the files in list order (witnessed through the standards-compliant parser);
the body ends with the closing boundary line `--boundary-- CRLF`; and the
accumulator's field list is in first-seen order on every event trace. -/
theorem c4_encoding_order (b fid : Bytes) (fields : List (Bytes × Bytes))
    (files : List FileRec)
    (hwf : wfSubmission b fid fields files = true) :
    ((parseMultipart b (encodeMultipart b fid fields files)).map (List.map Part.name)
      = some (ascii "formId" ::
          ((fields.filter keepField).map Prod.fst ++ files.map FileRec.name)))
    ∧ (∃ pre, encodeMultipart b fid fields files
        = pre ++ (dash2 ++ b ++ (dash2 ++ crlf)))
    ∧ (∀ (cfg : Config) (b2 : Bytes) (net : Outbound → Upstream) (evs : List Ev),
        (runMP cfg b2 net evs).fields.map Prod.fst = fieldOrder [] evs) := by
  refine ⟨?_, ?_, ?_⟩
  · rw [parse_encode b fid fields files hwf]
    have h1 : (Part.name ∘ fieldAsPart) = (Prod.fst : Bytes × Bytes → Bytes) :=
      funext fun _ => rfl
    have h2 : (Part.name ∘ fileAsPart) = FileRec.name := funext fun _ => rfl
    simp [expectedParts, h1, h2]
  · refine ⟨encodeFieldPart b (ascii "formId") fid ++
      (fields.map (encodeFieldEntry b)).flatten ++
      (files.map (encodeFilePart b)).flatten, ?_⟩
    simp [encodeMultipart, closeDelim, List.append_assoc]
  · intro cfg b2 net evs
    have h5 := (runStateAux cfg b2 net evs initMP (by simp [initMP])).2.2.2.2
    simpa [runMP, initMP] using h5

/-- C4 witness: the theorem instantiated on a concrete submission. -/
theorem c4_witness :
    ((parseMultipart exBoundary (encodeMultipart exBoundary exFid exFields exFiles)).map
        (List.map Part.name)
      = some (ascii "formId" ::
          ((exFields.filter keepField).map Prod.fst ++ exFiles.map FileRec.name)))
    ∧ (∃ pre, encodeMultipart exBoundary exFid exFields exFiles
        = pre ++ (dash2 ++ exBoundary ++ (dash2 ++ crlf)))
    ∧ (∀ (cfg : Config) (b2 : Bytes) (net : Outbound → Upstream) (evs : List Ev),
        (runMP cfg b2 net evs).fields.map Prod.fst = fieldOrder [] evs) :=
  c4_encoding_order exBoundary exFid exFields exFiles (by decide)


/-- Deleting a key from a parsed JSON value filters exactly that key out of
its entries (non-objects have no entries). -/
theorem jsDelete_entries (k : String) (j s : Json) (h : jsDelete k j = .ok s) :
    jsonEntries s = (jsonEntries j).filter (fun kv => kv.1 ≠ k) := by
  cases j with
  | null => simp [jsDelete] at h
  | obj kvs =>
    simp only [jsDelete, Except.ok.injEq] at h
    rw [← h]
    simp [jsonEntries]
  | bool b =>
    simp only [jsDelete, Except.ok.injEq] at h
    rw [← h]
    simp [jsonEntries]
  | num n =>
    simp only [jsDelete, Except.ok.injEq] at h
    rw [← h]
    simp [jsonEntries]
  | str t =>
    simp only [jsDelete, Except.ok.injEq] at h
    rw [← h]
    simp [jsonEntries]
  | arr xs =>
    simp only [jsDelete, Except.ok.injEq] at h
    rw [← h]
    simp [jsonEntries]

/-- C8: the reserved control fields `form-name` and `bot-field` never reach
the forwarded body on either path: the multipart accumulator never stores
them, the JSON path forwards exactly the stripped body (whose entries never
carry a reserved key), and the re-encoder's field loop emits nothing for a
reserved name whatever value it carries. -/
theorem c8_reserved_never_forwarded :
    (∀ (cfg : Config) (b : Bytes) (net : Outbound → Upstream) (evs : List Ev),
      ∀ p ∈ (runMP cfg b net evs).fields,
        p.1 ≠ ascii "form-name" ∧ p.1 ≠ ascii "bot-field")
    ∧ (∀ (cfg : Config) (j s : Json) (net : Outbound → Upstream),
        (jsDelete "form-name" j).bind (jsDelete "bot-field") = .ok s →
        (handleJsonRequest cfg (.ok j) net).1 = [jsonOutbound cfg s]
        ∧ ∀ kv ∈ jsonEntries s, kv.1 ≠ "form-name" ∧ kv.1 ≠ "bot-field")
    ∧ (∀ (b v : Bytes),
        encodeFieldEntry b (ascii "form-name", v) = []
        ∧ encodeFieldEntry b (ascii "bot-field", v) = []) := by
  refine ⟨?_, ?_, ?_⟩
  · intro cfg b net evs p hp
    have h5 : (runMP cfg b net evs).fields.map Prod.fst
        = fieldOrder (initMP.fields.map Prod.fst) evs :=
      (runStateAux cfg b net evs initMP (by simp [initMP])).2.2.2.2
    have hmem : p.1 ∈ (runMP cfg b net evs).fields.map Prod.fst :=
      List.mem_map_of_mem Prod.fst hp
    rw [h5] at hmem
    rcases fieldOrder_mem evs _ p.1 hmem with hin | hgood
    · simp [initMP] at hin
    · exact hgood
  · intro cfg j s net h
    constructor
    · simp [handleJsonRequest, h]
    · intro kv hkv
      obtain ⟨s1, h1, h2⟩ : ∃ s1, jsDelete "form-name" j = .ok s1
          ∧ jsDelete "bot-field" s1 = .ok s := by
        cases hd : jsDelete "form-name" j with
        | error e =>
          rw [hd] at h
          simp [Except.bind] at h
        | ok s1 =>
          rw [hd] at h
          exact ⟨s1, rfl, by simpa [Except.bind] using h⟩
      have e2 := jsDelete_entries "bot-field" s1 s h2
      have e1 := jsDelete_entries "form-name" j s1 h1
      rw [e2, e1] at hkv
      have hkv1 := List.mem_filter.mp hkv
      have hkv2 := List.mem_filter.mp hkv1.1
      exact ⟨by simpa using hkv2.2, by simpa using hkv1.2⟩
  · intro b v
    constructor
    · have hk : keepField (ascii "form-name", v) = false := rfl
      simp [encodeFieldEntry, hk]
    · have hk : keepField (ascii "bot-field", v) = false := rfl
      simp [encodeFieldEntry, hk]

/-- C8 witness: the theorem instantiated on a concrete trace, a concrete
JSON body carrying a reserved field, and a concrete reserved field value. -/
theorem c8_witness :
    ((ascii "a", ascii "x") ∈ (runMP exCfg exBoundary exNet exEvents).fields
      → ((ascii "a", ascii "x") : Bytes × Bytes).1 ≠ ascii "form-name"
        ∧ ((ascii "a", ascii "x") : Bytes × Bytes).1 ≠ ascii "bot-field")
    ∧ ((handleJsonRequest exCfg (.ok exRawJson) exNet).1
        = [jsonOutbound exCfg exStrippedJson]
      ∧ ∀ kv ∈ jsonEntries exStrippedJson, kv.1 ≠ "form-name" ∧ kv.1 ≠ "bot-field")
    ∧ (encodeFieldEntry exBoundary (ascii "form-name", ascii "spam") = []
      ∧ encodeFieldEntry exBoundary (ascii "bot-field", ascii "spam") = []) :=
  ⟨fun hp => c8_reserved_never_forwarded.1 exCfg exBoundary exNet exEvents _ hp,
   c8_reserved_never_forwarded.2.1 exCfg exRawJson exStrippedJson exNet (by rfl),
   c8_reserved_never_forwarded.2.2 exBoundary (ascii "spam")⟩

/-- C3: evaluation of the handler at the failing input — a multipart request
whose only usable file stream emits `error` and never drains.  The error
handler only logs, so `completedFiles` never reaches `pendingFiles`: no
forward happens, the promise never settles, no outbound call is made, and
the caller never receives a response (the code stalls instead of completing
the submission without the failed file).  A parser-level busboy error, by
contrast, does abort: it rejects and the outer catch returns the 500
response. -/
theorem c3_file_error_stalls :
    createMailerHandler exCfg exMpErrEvent exBoundary exNet = ([], none)
    ∧ createMailerHandler exCfg exMpParseErrEvent exBoundary exNet
        = ([], some (internalError "Unexpected end of form")) :=
  ⟨rfl, rfl⟩


end Mailer
